import Mathlib

/-
Verification of the DocProcAiService core (src/service/DocProcAiService.py):
ingestion, cross-content linking, deletion, link retrieval, semantic search,
and the priority-queue background scheduler (Python heapq via queue.PriorityQueue).

The database tables (documents, videos, media_record_links) are embedded as
lists of rows; uuids are embedded as Nat; SQL statements are embedded as the
corresponding pure list operations; Python exceptions are embedded as Except.
External collaborators (the text similarity scorer Levenshtein.ratio, the
embedding distance operator of pgvector) are parameters of the definitions
that call them, since they live outside this repository.
-/

namespace DocProcAi

/-- A row of the documents table: id, text, media_record, page, embedding. -/
structure DocumentRow where
  id : Nat
  text : String
  media_record : Nat
  page : Nat
  embedding : List ℚ
deriving DecidableEq

/-- A row of the videos table: id, screen_text, transcript, media_record,
start_time, embedding. -/
structure VideoRow where
  id : Nat
  screen_text : String
  transcript : String
  media_record : Nat
  start_time : Nat
  embedding : List ℚ
deriving DecidableEq

/-- A row of the media_record_links table: content_id, segment1_id, segment2_id. -/
structure LinkRow where
  content_id : Nat
  segment1_id : Nat
  segment2_id : Nat
deriving DecidableEq

/-- The mutable store of the service: the three tables created in
DocProcAiService.__init__. -/
structure DB where
  documents : List DocumentRow
  videos : List VideoRow
  media_record_links : List LinkRow
deriving DecidableEq

/-- Whether a link row matches the unordered segment pair (a, b): the
disjunction used by the WHERE clause of
does_link_between_media_record_segments_exist. -/
def linkMatchesPair (l : LinkRow) (a b : Nat) : Bool :=
  (l.segment1_id = a ∧ l.segment2_id = b) ∨ (l.segment1_id = b ∧ l.segment2_id = a)

/-- does_link_between_media_record_segments_exist: SELECT EXISTS of a row whose
(segment1_id, segment2_id) equals (a, b) in either order. -/
def does_link_between_media_record_segments_exist (links : List LinkRow)
    (segment_id other_segment_id : Nat) : Bool :=
  links.any (fun l => linkMatchesPair l segment_id other_segment_id)

/-- create_link_between_media_record_segments: an unconditional INSERT of one
row into media_record_links. -/
def create_link_between_media_record_segments (links : List LinkRow)
    (content_id segment_id other_segment_id : Nat) : List LinkRow :=
  links ++ [{ content_id := content_id, segment1_id := segment_id,
              segment2_id := other_segment_id }]

/-- The number of rows of media_record_links matching the unordered pair (a, b). -/
def countLinksForPair (links : List LinkRow) (a b : Nat) : Nat :=
  (links.filter (fun l => linkMatchesPair l a b)).length

/-- delete_entries_of_media_record: three DELETE statements. The first deletes
from media_record_links WHERE segment1_id = media_record_id OR
segment2_id = media_record_id (the parameter bound to both comparisons is the
media record id); the other two delete the documents and videos rows of the
media record. A SQL DELETE keeping the rows that fail the condition is embedded
as a filter by the negated condition. -/
def delete_entries_of_media_record (db : DB) (media_record_id : Nat) : DB :=
  { media_record_links := db.media_record_links.filter
      (fun l => ¬ (l.segment1_id = media_record_id ∨ l.segment2_id = media_record_id)),
    documents := db.documents.filter (fun d => ¬ d.media_record = media_record_id),
    videos := db.videos.filter (fun v => ¬ v.media_record = media_record_id) }

end DocProcAi

namespace DocProcAi

/-- A concrete store exercising deletion: one document segment with id 1
belonging to media record 2, and one link whose segment1_id is that segment. -/
def deleteBugDB : DB :=
  { documents := [{ id := 1, text := "slide text", media_record := 2, page := 0,
                    embedding := [0] }],
    videos := [],
    media_record_links := [{ content_id := 9, segment1_id := 1, segment2_id := 3 }] }

/-- A row of the segment-retrieval query of
generate_content_media_record_links_task: document rows contribute
(id, mediaRecordId, source, page, NULL startTime, text) and video rows
contribute (id, mediaRecordId, source, NULL page, startTime, screen_text AS
text). -/
structure LinkerRow where
  id : Nat
  mediaRecordId : Nat
  source : String
  page : Option Nat
  startTime : Option Nat
  text : String
deriving DecidableEq

/-- The UNION ALL query of generate_content_media_record_links_task: document
rows whose media_record is in the given list, followed by video rows whose
media_record is in the given list, each mapped to the common row shape. -/
def linkerQuery (db : DB) (mediaRecordIds : List Nat) : List LinkerRow :=
  (db.documents.filter (fun d => d.media_record ∈ mediaRecordIds)).map
    (fun d => { id := d.id, mediaRecordId := d.media_record, source := "document",
                page := some d.page, startTime := none, text := d.text })
  ++ (db.videos.filter (fun v => v.media_record ∈ mediaRecordIds)).map
    (fun v => { id := v.id, mediaRecordId := v.media_record, source := "video",
                page := none, startTime := some v.start_time, text := v.screen_text })

/-- One step of building the media_records_segments dict: if the key is already
present, append the row to its list, otherwise add a new (key, [row]) entry at
the end. Python dicts preserve key insertion order, so the dict is an ordered
association list. -/
def addToGroup (acc : List (Nat × List LinkerRow)) (k : Nat) (r : LinkerRow) :
    List (Nat × List LinkerRow) :=
  match acc with
  | [] => [(k, [r])]
  | (k2, rs) :: rest =>
    if k2 = k then (k2, rs ++ [r]) :: rest else (k2, rs) :: addToGroup rest k r

/-- The grouping loop of generate_content_media_record_links_task: the query
results grouped by mediaRecordId into the media_records_segments dict. -/
def groupByMediaRecord (rows : List LinkerRow) : List (Nat × List LinkerRow) :=
  rows.foldl (fun acc r => addToGroup acc r.mediaRecordId r) []

/-- The body of the innermost loop of generate_content_media_record_links_task:
skip the pair if an (undirected) link already exists, otherwise compute the
Levenshtein ratio of the two text fields and insert a link when it exceeds 0.9.
The similarity scorer Levenshtein.ratio is an external library, embedded as the
parameter ratio with the threshold 0.9 as the rational 9/10. -/
def linkStep (ratio : String → String → ℚ) (content_id : Nat) (s o : LinkerRow)
    (links : List LinkRow) : List LinkRow :=
  if does_link_between_media_record_segments_exist links s.id o.id then links
  else if ratio s.text o.text > 9/10 then
    create_link_between_media_record_segments links content_id s.id o.id
  else links

/-- The innermost loop: for other_segment in other_segments, run linkStep.
The fold threads the media_record_links table through in program order. -/
def linkOtherSegments (ratio : String → String → ℚ) (content_id : Nat)
    (s : LinkerRow) (others : List LinkerRow) (links : List LinkRow) : List LinkRow :=
  others.foldl (fun st o => linkStep ratio content_id s o st) links

/-- The loop over the other media records for a fixed segment s of media record
mid: entries of the dict whose key equals mid are skipped, the others feed
their segment lists to the innermost loop. -/
def linkAgainstOtherRecords (ratio : String → String → ℚ) (content_id : Nat)
    (groups : List (Nat × List LinkerRow)) (mid : Nat) (s : LinkerRow)
    (links : List LinkRow) : List LinkRow :=
  groups.foldl
    (fun st og => if og.1 = mid then st
                  else linkOtherSegments ratio content_id s og.2 st) links

/-- The loop over the segments of one media record entry of the dict. -/
def linkRecordSegments (ratio : String → String → ℚ) (content_id : Nat)
    (groups : List (Nat × List LinkerRow)) (g : Nat × List LinkerRow)
    (links : List LinkRow) : List LinkRow :=
  g.2.foldl (fun st s => linkAgainstOtherRecords ratio content_id groups g.1 s st) links

/-- The four nested loops of generate_content_media_record_links_task: for each
media record entry of the media_records_segments dict and each of its segments,
for each other media record (skipped when it is the same record) and each of
its segments, run linkStep. -/
def generateLinksLoop (ratio : String → String → ℚ) (content_id : Nat)
    (groups : List (Nat × List LinkerRow)) (links : List LinkRow) : List LinkRow :=
  groups.foldl (fun st g => linkRecordSegments ratio content_id groups g st) links

/-- generate_content_media_record_links_task: query the segments of the given
media records, group them by media record, and run the pairwise linking loops
against the media_record_links table. Only that table changes. -/
def generate_content_media_record_links_task (ratio : String → String → ℚ)
    (db : DB) (content_id : Nat) (media_record_ids : List Nat) : DB :=
  let newLinks :=
    generateLinksLoop ratio content_id
      (groupByMediaRecord (linkerQuery db media_record_ids)) db.media_record_links
  { db with media_record_links := newLinks }

/-- The n-fold re-run of generate_content_media_record_links_task for the same
content and media record list. -/
def runLinkContentN (ratio : String → String → ℚ) (db : DB) (content_id : Nat)
    (media_record_ids : List Nat) : Nat → DB
  | 0 => db
  | n + 1 =>
    runLinkContentN ratio
      (generate_content_media_record_links_task ratio db content_id media_record_ids)
      content_id media_record_ids n

/-- A row of the segment-fetch query of get_media_record_links_for_content:
the union row shape over documents and videos, with NULL columns for the
fields the other source lacks. NULL is embedded as none. -/
structure SegmentResultRow where
  id : Nat
  mediaRecordId : Nat
  source : String
  page : Option Nat
  startTime : Option Nat
  text : Option String
  screenText : Option String
  transcript : Option String
deriving DecidableEq

/-- The document branch of the union query of
get_media_record_links_for_content. -/
def segmentRowOfDocument (d : DocumentRow) : SegmentResultRow :=
  { id := d.id, mediaRecordId := d.media_record, source := "document",
    page := some d.page, startTime := none, text := some d.text,
    screenText := none, transcript := none }

/-- The video branch of the union query of get_media_record_links_for_content. -/
def segmentRowOfVideo (v : VideoRow) : SegmentResultRow :=
  { id := v.id, mediaRecordId := v.media_record, source := "video",
    page := none, startTime := some v.start_time, text := none,
    screenText := some v.screen_text, transcript := some v.transcript }

/-- The union query of get_media_record_links_for_content: document rows and
video rows whose id is in the collected segment id list. -/
def fetchLinkSegments (db : DB) (segmentIds : List Nat) : List SegmentResultRow :=
  (db.documents.filter (fun d => d.id ∈ segmentIds)).map segmentRowOfDocument
  ++ (db.videos.filter (fun v => v.id ∈ segmentIds)).map segmentRowOfVideo

/-- The del statements of get_media_record_links_for_content: for a document
row the video-only keys are removed, for a video row the document-only keys are
removed. Removing a dict key is embedded as setting the optional field to
none. -/
def normalizeSegmentRow (r : SegmentResultRow) : SegmentResultRow :=
  if r.source = "document" then
    { r with startTime := none, screenText := none, transcript := none }
  else if r.source = "video" then { r with page := none, text := none }
  else r

/-- The final list comprehension of get_media_record_links_for_content: for
each link row of the content, look up its two segments among the fetched rows
with next(x for x in result_segments if x.id = ...). A next call on an
exhausted generator raises StopIteration, embedded as an error result. -/
def buildLinkPairs (segments : List SegmentResultRow) :
    List LinkRow → Except String (List (SegmentResultRow × SegmentResultRow))
  | [] => .ok []
  | l :: ls =>
    match segments.find? (fun x => x.id = l.segment1_id),
          segments.find? (fun x => x.id = l.segment2_id) with
    | some s1, some s2 =>
      match buildLinkPairs segments ls with
      | .ok rest => .ok ((s1, s2) :: rest)
      | .error e => .error e
    | _, _ => .error "StopIteration"

/-- get_media_record_links_for_content: select the link rows of the content,
collect their segment ids (segment1 then segment2 of each link, in order),
fetch and normalize the referenced segment rows, and build the pair list. -/
def get_media_record_links_for_content (db : DB) (content_id : Nat) :
    Except String (List (SegmentResultRow × SegmentResultRow)) :=
  let result := db.media_record_links.filter (fun l => l.content_id = content_id)
  let all_segment_ids :=
    result.foldl (fun acc l => acc ++ [l.segment1_id, l.segment2_id]) []
  let result_segments := (fetchLinkSegments db all_segment_ids).map normalizeSegmentRow
  buildLinkPairs result_segments result

/-- The exception raised by ingest_media_record_task on an unsupported type is
a ValueError. The constructor unsupportedMediaTypeError is modelled from the
spec: section 4.2 names an UnsupportedMediaTypeError class, which does not
occur anywhere in the source; the constructor exists only so that the claim
about the error class can be stated and compared against the source
behaviour. -/
inductive PyError where
  | valueError (message : String)
  | unsupportedMediaTypeError (message : String)
deriving DecidableEq

/-- Whether an error value belongs to the spec-modelled
UnsupportedMediaTypeError class. -/
def PyError.isUnsupportedMediaTypeError : PyError → Bool
  | .unsupportedMediaTypeError _ => true
  | _ => false

/-- One result of LecturePdfEmbeddingGenerator.generate_embedding. -/
structure PdfEmbeddingResult where
  text : String
  page_number : Nat
  embedding : List ℚ
deriving DecidableEq

/-- One result of LectureVideoEmbeddingGenerator.generate_embeddings. -/
structure VideoEmbeddingResult where
  screen_text : String
  transcript : String
  start_time : Nat
  embedding : List ℚ
deriving DecidableEq

/-- ingest_media_record_task: a PRESENTATION or DOCUMENT record inserts one
documents row per pdf embedding result, a VIDEO record inserts one videos row
per video embedding result, and any other type raises a ValueError naming the
type, without touching the store. The embedding generators and the media
service client are external collaborators, embedded as the result-list
parameters; the row ids generated by the database (gen_random_uuid) are
embedded as the id-assignment parameters. -/
def ingest_media_record_task (db : DB) (media_record_id : Nat)
    (record_type : String) (pdfResults : List PdfEmbeddingResult)
    (videoResults : List VideoEmbeddingResult)
    (docIdGen videoIdGen : Nat → Nat) : Except PyError DB :=
  if record_type = "PRESENTATION" ∨ record_type = "DOCUMENT" then
    let newDocs := pdfResults.enum.map
      (fun p => { id := docIdGen p.1, text := p.2.text,
                  media_record := media_record_id, page := p.2.page_number,
                  embedding := p.2.embedding : DocumentRow })
    .ok { db with documents := db.documents ++ newDocs }
  else if record_type = "VIDEO" then
    let newVideos := videoResults.enum.map
      (fun p => { id := videoIdGen p.1, screen_text := p.2.screen_text,
                  transcript := p.2.transcript, media_record := media_record_id,
                  start_time := p.2.start_time,
                  embedding := p.2.embedding : VideoRow })
    .ok { db with videos := db.videos ++ newVideos }
  else
    .error (.valueError
      ("Asked to ingest unsupported media record type of type " ++ record_type))

/-- A row of the semantic_search query: the union row shape over documents and
videos plus the vector-distance score column. -/
structure SearchResultRow where
  mediaRecordId : Nat
  source : String
  page : Option Nat
  startTime : Option Nat
  text : Option String
  screenText : Option String
  transcript : Option String
  score : ℚ
deriving DecidableEq

/-- The two filtered branches of the semantic_search query before ordering:
rows whose media_record is in the whitelist and not in the blacklist, scored
by the vector distance of their embedding to the query embedding. The pgvector
distance operator is external, embedded as the parameter dist. -/
def searchCandidates (db : DB) (dist : List ℚ → List ℚ → ℚ)
    (query_embedding : List ℚ) (blacklist whitelist : List Nat) :
    List SearchResultRow :=
  (db.documents.filter
      (fun d => d.media_record ∈ whitelist ∧ d.media_record ∉ blacklist)).map
    (fun d => { mediaRecordId := d.media_record, source := "document",
                page := some d.page, startTime := none, text := some d.text,
                screenText := none, transcript := none,
                score := dist d.embedding query_embedding })
  ++ (db.videos.filter
      (fun v => v.media_record ∈ whitelist ∧ v.media_record ∉ blacklist)).map
    (fun v => { mediaRecordId := v.media_record, source := "video",
                page := none, startTime := some v.start_time, text := none,
                screenText := some v.screen_text, transcript := some v.transcript,
                score := dist v.embedding query_embedding })

/-- The del statements of semantic_search, as for
get_media_record_links_for_content. -/
def normalizeSearchRow (r : SearchResultRow) : SearchResultRow :=
  if r.source = "document" then
    { r with startTime := none, screenText := none, transcript := none }
  else if r.source = "video" then { r with page := none, text := none }
  else r

/-- semantic_search: embed the query (external, the embedding is a parameter),
take the filtered scored rows, ORDER BY score LIMIT count, normalize each row,
and return score-and-segment pairs. ORDER BY is embedded as a merge sort by
non-decreasing score. -/
def semantic_search (db : DB) (dist : List ℚ → List ℚ → ℚ)
    (query_embedding : List ℚ) (count : Nat) (blacklist whitelist : List Nat) :
    List (ℚ × SearchResultRow) :=
  let query_result :=
    ((searchCandidates db dist query_embedding blacklist whitelist).mergeSort
      (fun x y => decide (x.score ≤ y.score))).take count
  (query_result.map normalizeSearchRow).map (fun r => (r.score, r))

/-- An item of the background task priority queue: the deferred task closure
(embedded as an identifying tag, since the scheduler never inspects it) and
its priority. -/
structure BackgroundTaskItem where
  task : Nat
  priority : Nat
deriving DecidableEq

instance : Inhabited BackgroundTaskItem := ⟨{ task := 0, priority := 0 }⟩

/-- BackgroundTaskItem.__lt__: comparison by priority only. -/
def BackgroundTaskItem.lt (a b : BackgroundTaskItem) : Bool :=
  a.priority < b.priority

/-- The loop of heapq._siftdown (CPython): starting with newitem read from
heap[pos], while pos > startpos, move the parent down into pos whenever
newitem compares less than it, then store newitem at the final position. The
recursion is fuelled; fuel pos is exact, since the position strictly decreases
each iteration and the zero-fuel fallback coincides with the pos = 0 exit. -/
def heapqSiftdownLoop :
    Nat → List BackgroundTaskItem → BackgroundTaskItem → Nat → Nat →
    List BackgroundTaskItem
  | 0, heap, newitem, _, pos => heap.set pos newitem
  | fuel + 1, heap, newitem, startpos, pos =>
    if startpos < pos then
      if BackgroundTaskItem.lt newitem (heap.getD ((pos - 1) / 2) default) then
        heapqSiftdownLoop fuel (heap.set pos (heap.getD ((pos - 1) / 2) default))
          newitem startpos ((pos - 1) / 2)
      else heap.set pos newitem
    else heap.set pos newitem

/-- heapq._siftdown (CPython). -/
def heapqSiftdown (heap : List BackgroundTaskItem) (startpos pos : Nat) :
    List BackgroundTaskItem :=
  heapqSiftdownLoop pos heap (heap.getD pos default) startpos pos

/-- The childpos selection of one heapq._siftup iteration (CPython): the left
child 2*pos+1, replaced by the right child rightpos = 2*pos+2 when the right
child is in range and the left one does not compare less than it. -/
def heapqChildpos (heap : List BackgroundTaskItem) (endpos pos : Nat) : Nat :=
  if 2 * pos + 2 < endpos ∧
      ¬ BackgroundTaskItem.lt (heap.getD (2 * pos + 1) default)
          (heap.getD (2 * pos + 2) default)
  then 2 * pos + 2 else 2 * pos + 1

/-- The loop of heapq._siftup (CPython): descend from pos to a leaf, at each
level moving the chosen child up into pos. Returns the array after the moves
and the final leaf position. The recursion is fuelled; the position strictly
increases each iteration and is bounded by endpos, so fuel endpos suffices. -/
def heapqSiftupLoop :
    Nat → List BackgroundTaskItem → Nat → Nat → List BackgroundTaskItem × Nat
  | 0, heap, _, pos => (heap, pos)
  | fuel + 1, heap, endpos, pos =>
    if 2 * pos + 1 < endpos then
      heapqSiftupLoop fuel
        (heap.set pos (heap.getD (heapqChildpos heap endpos pos) default)) endpos
        (heapqChildpos heap endpos pos)
    else (heap, pos)

/-- heapq._siftup (CPython): after the descent, the held newitem (read from
heap[pos] on entry, with endpos the array length and startpos the entry
position) is stored at the final leaf position and bubbled up with
_siftdown. -/
def heapqSiftup (heap : List BackgroundTaskItem) (pos : Nat) :
    List BackgroundTaskItem :=
  heapqSiftdown
    ((heapqSiftupLoop heap.length heap heap.length pos).1.set
      (heapqSiftupLoop heap.length heap heap.length pos).2 (heap.getD pos default))
    pos (heapqSiftupLoop heap.length heap heap.length pos).2

/-- heapq.heappush, used by queue.PriorityQueue.put: append the item, then
sift it toward the root. -/
def heappush (heap : List BackgroundTaskItem) (item : BackgroundTaskItem) :
    List BackgroundTaskItem :=
  heapqSiftdown (heap ++ [item]) 0 ((heap ++ [item]).length - 1)

/-- heapq.heappop, used by queue.PriorityQueue.get: remove the last element;
if the heap is still nonempty, return the root after replacing it with the
last element and sifting; otherwise return the last element itself.
PriorityQueue.get only pops a nonempty heap, so the empty case is none. -/
def heappop :
    List BackgroundTaskItem →
    Option (BackgroundTaskItem × List BackgroundTaskItem)
  | [] => none
  | x :: xs =>
    let lastelt := (x :: xs).getLast (List.cons_ne_nil x xs)
    match (x :: xs).dropLast with
    | [] => some (lastelt, [])
    | y :: ys => some (y, heapqSiftup ((y :: ys).set 0 lastelt) 0)

/-- The queue built by a sequence of put calls starting from the empty queue. -/
def buildHeap (items : List BackgroundTaskItem) : List BackgroundTaskItem :=
  items.foldl heappush []

/-- The order in which the worker thread of _background_task_runner dequeues
and runs the queued items when no further items arrive: repeated heappop until
the queue is empty. The recursion is fuelled by the heap size, which each pop
decreases by one. -/
def drainHeapFuel : Nat → List BackgroundTaskItem → List BackgroundTaskItem
  | 0, _ => []
  | fuel + 1, heap =>
    match heappop heap with
    | none => []
    | some (x, rest) => x :: drainHeapFuel fuel rest

/-- The dequeue-and-run order of the worker on a given queue state. -/
def drainHeap (heap : List BackgroundTaskItem) : List BackgroundTaskItem :=
  drainHeapFuel heap.length heap

/-- The invariant of a CPython heapq array: every element is at least its
parent under the item comparison, here the priority order. -/
def HeapProp (heap : List BackgroundTaskItem) : Prop :=
  ∀ c, c < heap.length → 0 < c →
    (heap.getD ((c - 1) / 2) default).priority ≤ (heap.getD c default).priority

instance (heap : List BackgroundTaskItem) : Decidable (HeapProp heap) := by
  unfold HeapProp; infer_instance

/-- A concrete similarity scorer for witnesses: ratio 1 for equal strings,
0 otherwise. -/
def ratioEq : String → String → ℚ := fun a b => if a = b then 1 else 0

/-- A concrete store for linker witnesses: one document of media record 1 and
one document of media record 2 with the same text, no links yet. -/
def linkerWitnessDB : DB :=
  { documents :=
      [{ id := 10, text := "shared slide", media_record := 1, page := 0,
         embedding := [0] },
       { id := 20, text := "shared slide", media_record := 2, page := 3,
         embedding := [1] }],
    videos := [],
    media_record_links := [] }

/-- A concrete store for the get_links witness: one link of content 7 whose two
segments both exist. -/
def getLinksOkDB : DB :=
  { documents :=
      [{ id := 10, text := "a", media_record := 1, page := 0, embedding := [0] }],
    videos :=
      [{ id := 20, screen_text := "b", transcript := "t", media_record := 2,
         start_time := 4, embedding := [1] }],
    media_record_links := [{ content_id := 7, segment1_id := 10, segment2_id := 20 }] }

/-- A concrete store for the get_links counterexample: one link of content 7
whose referenced segments exist in neither table. -/
def getLinksDanglingDB : DB :=
  { documents := [], videos := [],
    media_record_links := [{ content_id := 7, segment1_id := 1, segment2_id := 2 }] }

/-- The body of _background_task_runner at the task-execution boundary: each
dequeued task is run with asyncio.run outside the try statement, whose only
handler catches queue.Empty. A task that returns normally is followed by the
next dequeue; a task that raises propagates out of the while loop and the
thread function exits. Given the queued tasks in dequeue order, each with its
outcome, this returns the tasks the worker actually starts. -/
def backgroundTaskRunnerExecutes :
    List (Except String Unit) → List (Except String Unit)
  | [] => []
  | t :: ts =>
    match t with
    | .ok _ => t :: backgroundTaskRunnerExecutes ts
    | .error _ => [t]

end DocProcAi

/-- C1: the claim states that after delete_media_record(media_record_id) no
segment of the record remains and no link referencing a deleted segment
remains. On the store deleteBugDB (segment id 1 of media record 2, one link
with segment1_id = 1), deleting media record 2 removes the document row but
keeps the link, because the DELETE on media_record_links compares the link
segment ids against the media record id instead of the ids of the segments
being deleted. The surviving link references the deleted segment id 1. -/
theorem delete_leaves_dangling_link :
    (DocProcAi.delete_entries_of_media_record DocProcAi.deleteBugDB 2).documents = [] ∧
    (DocProcAi.delete_entries_of_media_record DocProcAi.deleteBugDB 2).videos = [] ∧
    (DocProcAi.delete_entries_of_media_record DocProcAi.deleteBugDB 2).media_record_links
      = [{ content_id := 9, segment1_id := 1, segment2_id := 3 }] ∧
    (∃ l ∈ (DocProcAi.delete_entries_of_media_record DocProcAi.deleteBugDB 2).media_record_links,
      l.segment1_id = 1 ∧
      ∀ d ∈ DocProcAi.deleteBugDB.documents, d.media_record = 2 ∧ d.id = 1) := by
  refine ⟨rfl, rfl, rfl, ?_⟩
  exact ⟨{ content_id := 9, segment1_id := 1, segment2_id := 3 }, by decide, by decide⟩

/-- C10: create_link_between_media_record_segments performs no existence check
and no same-record check: for every store and arguments, calling it twice with
the same arguments adds exactly two rows matching the unordered pair, on top of
whatever was already there. -/
theorem create_link_twice_duplicates (links : List DocProcAi.LinkRow)
    (content_id segment_id other_segment_id : Nat) :
    DocProcAi.countLinksForPair
      (DocProcAi.create_link_between_media_record_segments
        (DocProcAi.create_link_between_media_record_segments links
          content_id segment_id other_segment_id)
        content_id segment_id other_segment_id)
      segment_id other_segment_id
    = DocProcAi.countLinksForPair links segment_id other_segment_id + 2 := by
  simp [DocProcAi.countLinksForPair, DocProcAi.create_link_between_media_record_segments,
        List.filter_append, DocProcAi.linkMatchesPair]

namespace DocProcAi

/-- Folding a step that preserves a predicate preserves it. -/
theorem foldl_preserve {α σ : Type} (P : σ → Prop) (f : σ → α → σ)
    (h : ∀ st x, P st → P (f st x)) :
    ∀ (l : List α) (st : σ), P st → P (l.foldl f st) := by
  intro l
  induction l with
  | nil => intro st hp; exact hp
  | cons x xs ih =>
    intro st hp
    simp only [List.foldl_cons]
    exact ih (f st x) (h st x hp)

/-- Provenance through a fold: a state property that each step either inherits
or establishes at its own element is, at the end, inherited from the start or
established by some element of the list. -/
theorem foldl_provenance {α σ : Type} (f : σ → α → σ) (M : σ → Prop)
    (Q : α → Prop) (h : ∀ st x, M (f st x) → M st ∨ Q x) :
    ∀ (l : List α) (st : σ), M (l.foldl f st) → M st ∨ ∃ x ∈ l, Q x := by
  intro l
  induction l with
  | nil => intro st hm; exact Or.inl hm
  | cons x xs ih =>
    intro st hm
    simp only [List.foldl_cons] at hm
    rcases ih (f st x) hm with hm2 | ⟨y, hy, hq⟩
    · rcases h st x hm2 with hm3 | hq
      · exact Or.inl hm3
      · exact Or.inr ⟨x, by simp, hq⟩
    · exact Or.inr ⟨y, by simp [hy], hq⟩

/-- The undirected pair match is symmetric in the pair. -/
theorem linkMatchesPair_comm (l : LinkRow) (a b : Nat) :
    linkMatchesPair l a b = linkMatchesPair l b a := by
  unfold linkMatchesPair
  exact decide_eq_decide.mpr (by tauto)

/-- The per-pair row count is symmetric in the pair. -/
theorem countLinksForPair_comm (links : List LinkRow) (a b : Nat) :
    countLinksForPair links a b = countLinksForPair links b a := by
  unfold countLinksForPair
  congr 1
  apply List.filter_congr
  intro l _
  rw [linkMatchesPair_comm]

/-- The existence query is equivalent to a positive per-pair row count. -/
theorem exist_iff_count_pos (links : List LinkRow) (a b : Nat) :
    does_link_between_media_record_segments_exist links a b = true ↔
      0 < countLinksForPair links a b := by
  unfold does_link_between_media_record_segments_exist countLinksForPair
  simp [List.any_eq_true, List.length_pos_iff_exists_mem, List.mem_filter]

/-- The insert of create_link_between_media_record_segments raises the count of
a pair by one exactly when the inserted row matches it. -/
theorem countLinksForPair_create (links : List LinkRow) (cid x y a b : Nat) :
    countLinksForPair (create_link_between_media_record_segments links cid x y) a b
      = countLinksForPair links a b
        + (if linkMatchesPair (LinkRow.mk cid x y) a b then 1 else 0) := by
  unfold countLinksForPair create_link_between_media_record_segments
  rw [List.filter_append, List.length_append]
  congr 1
  by_cases h : linkMatchesPair (LinkRow.mk cid x y) a b = true
  · simp [List.filter_singleton, h]
  · simp only [Bool.not_eq_true] at h
    simp [List.filter_singleton, h]

/-- Which unordered pairs a freshly built row matches. -/
theorem linkMatchesPair_mk_iff (cid x y a b : Nat) :
    linkMatchesPair (LinkRow.mk cid x y) a b = true ↔
      (x = a ∧ y = b) ∨ (x = b ∧ y = a) := by
  simp [linkMatchesPair]

/-- Counts agree on equal unordered pairs. -/
theorem countLinksForPair_congr_pair (links : List LinkRow) {x y a b : Nat}
    (h : (x = a ∧ y = b) ∨ (x = b ∧ y = a)) :
    countLinksForPair links x y = countLinksForPair links a b := by
  rcases h with ⟨rfl, rfl⟩ | ⟨rfl, rfl⟩
  · rfl
  · exact countLinksForPair_comm links x y

/-- One linkStep keeps the count of every pair at most one. -/
theorem count_linkStep_le_one (ratio : String → String → ℚ) (cid : Nat)
    (s o : LinkerRow) (links : List LinkRow) (a b : Nat)
    (h : countLinksForPair links a b ≤ 1) :
    countLinksForPair (linkStep ratio cid s o links) a b ≤ 1 := by
  unfold linkStep
  split
  · exact h
  next hnex =>
    split
    · rw [countLinksForPair_create]
      split
      next hm =>
        have hpair := (linkMatchesPair_mk_iff cid s.id o.id a b).mp hm
        have h0 : countLinksForPair links s.id o.id = 0 := by
          by_contra hne
          exact hnex ((exist_iff_count_pos links s.id o.id).mpr
            (Nat.pos_of_ne_zero hne))
        have hab : countLinksForPair links a b = 0 := by
          rw [← countLinksForPair_congr_pair links hpair]
          exact h0
        omega
      · omega
    · exact h

end DocProcAi

namespace DocProcAi

/-- One linkStep never lowers the count of a pair. -/
theorem count_linkStep_mono (ratio : String → String → ℚ) (cid : Nat)
    (s o : LinkerRow) (links : List LinkRow) (a b : Nat) :
    countLinksForPair links a b ≤ countLinksForPair (linkStep ratio cid s o links) a b := by
  unfold linkStep
  split
  · exact le_refl _
  · split
    · rw [countLinksForPair_create]
      omega
    · exact le_refl _

/-- The linkStep visiting a pair above the threshold leaves at least one row
for it, whether it creates the row or finds one already present. -/
theorem count_linkStep_visit (ratio : String → String → ℚ) (cid : Nat)
    (s o : LinkerRow) (links : List LinkRow)
    (hr : ratio s.text o.text > 9/10) :
    1 ≤ countLinksForPair (linkStep ratio cid s o links) s.id o.id := by
  unfold linkStep
  by_cases hex : does_link_between_media_record_segments_exist links s.id o.id = true
  · rw [if_pos hex]
    exact (exist_iff_count_pos links s.id o.id).mp hex
  · rw [if_neg hex, if_pos hr, countLinksForPair_create]
    have hm : linkMatchesPair (LinkRow.mk cid s.id o.id) s.id o.id = true :=
      (linkMatchesPair_mk_iff cid s.id o.id s.id o.id).mpr (Or.inl ⟨rfl, rfl⟩)
    rw [if_pos hm]
    omega

/-- A property preserved by every linkStep is preserved by the innermost loop. -/
theorem linkOtherSegments_preserve (ratio : String → String → ℚ) (cid : Nat)
    (P : List LinkRow → Prop)
    (hstep : ∀ links (s o : LinkerRow), P links → P (linkStep ratio cid s o links))
    (s : LinkerRow) (others : List LinkerRow) (links : List LinkRow)
    (h : P links) : P (linkOtherSegments ratio cid s others links) :=
  foldl_preserve P _ (fun st o hp => hstep st s o hp) others links h

/-- A property preserved by every linkStep is preserved by the loop over the
other media records. -/
theorem linkAgainstOtherRecords_preserve (ratio : String → String → ℚ) (cid : Nat)
    (P : List LinkRow → Prop)
    (hstep : ∀ links (s o : LinkerRow), P links → P (linkStep ratio cid s o links))
    (groups : List (Nat × List LinkerRow)) (mid : Nat) (s : LinkerRow)
    (links : List LinkRow) (h : P links) :
    P (linkAgainstOtherRecords ratio cid groups mid s links) := by
  apply foldl_preserve P _ _ groups links h
  intro st og hp
  dsimp only
  split
  · exact hp
  · exact linkOtherSegments_preserve ratio cid P hstep s og.2 st hp

/-- A property preserved by every linkStep is preserved by the loop over the
segments of one media record. -/
theorem linkRecordSegments_preserve (ratio : String → String → ℚ) (cid : Nat)
    (P : List LinkRow → Prop)
    (hstep : ∀ links (s o : LinkerRow), P links → P (linkStep ratio cid s o links))
    (groups : List (Nat × List LinkerRow)) (g : Nat × List LinkerRow)
    (links : List LinkRow) (h : P links) :
    P (linkRecordSegments ratio cid groups g links) := by
  apply foldl_preserve P _ _ g.2 links h
  intro st s hp
  exact linkAgainstOtherRecords_preserve ratio cid P hstep groups g.1 s st hp

/-- A property preserved by every linkStep is preserved by the whole pairwise
linking loop. -/
theorem generateLinksLoop_preserve (ratio : String → String → ℚ) (cid : Nat)
    (P : List LinkRow → Prop)
    (hstep : ∀ links (s o : LinkerRow), P links → P (linkStep ratio cid s o links))
    (groups : List (Nat × List LinkerRow)) (links : List LinkRow) (h : P links) :
    P (generateLinksLoop ratio cid groups links) := by
  apply foldl_preserve P _ _ groups links h
  intro st g hp
  exact linkRecordSegments_preserve ratio cid P hstep groups g st hp

/-- The pairwise linking loop keeps the count of every pair at most one. -/
theorem count_loop_le_one (ratio : String → String → ℚ) (cid : Nat)
    (groups : List (Nat × List LinkerRow)) (links : List LinkRow) (a b : Nat)
    (h : countLinksForPair links a b ≤ 1) :
    countLinksForPair (generateLinksLoop ratio cid groups links) a b ≤ 1 :=
  generateLinksLoop_preserve ratio cid (fun st => countLinksForPair st a b ≤ 1)
    (fun st s o hp => count_linkStep_le_one ratio cid s o st a b hp) groups links h

/-- The pairwise linking loop never lowers the count of a pair. -/
theorem count_loop_mono (ratio : String → String → ℚ) (cid : Nat)
    (groups : List (Nat × List LinkerRow)) (links : List LinkRow) (a b n : Nat)
    (h : n ≤ countLinksForPair links a b) :
    n ≤ countLinksForPair (generateLinksLoop ratio cid groups links) a b :=
  generateLinksLoop_preserve ratio cid (fun st => n ≤ countLinksForPair st a b)
    (fun st s o hp => le_trans hp (count_linkStep_mono ratio cid s o st a b))
    groups links h

end DocProcAi

namespace DocProcAi

/-- After the innermost loop visits a pair above the threshold, at least one
row for the pair is present. -/
theorem visit_linkOtherSegments (ratio : String → String → ℚ) (cid : Nat)
    (s o : LinkerRow) (others : List LinkerRow) (links : List LinkRow)
    (ho : o ∈ others) (hr : ratio s.text o.text > 9/10) :
    1 ≤ countLinksForPair (linkOtherSegments ratio cid s others links) s.id o.id := by
  obtain ⟨l1, l2, rfl⟩ := List.append_of_mem ho
  unfold linkOtherSegments
  rw [List.foldl_append, List.foldl_cons]
  apply foldl_preserve (fun st => 1 ≤ countLinksForPair st s.id o.id)
  · intro st x hp
    exact le_trans hp (count_linkStep_mono ratio cid s x st s.id o.id)
  · exact count_linkStep_visit ratio cid s o _ hr

/-- After the loop over the other media records visits a group with a different
key containing a segment above the threshold, at least one row for the pair is
present. -/
theorem visit_linkAgainstOtherRecords (ratio : String → String → ℚ) (cid : Nat)
    (groups : List (Nat × List LinkerRow)) (mid : Nat) (s : LinkerRow)
    (og : Nat × List LinkerRow) (o : LinkerRow) (links : List LinkRow)
    (hog : og ∈ groups) (hne : og.1 ≠ mid) (ho : o ∈ og.2)
    (hr : ratio s.text o.text > 9/10) :
    1 ≤ countLinksForPair (linkAgainstOtherRecords ratio cid groups mid s links)
          s.id o.id := by
  obtain ⟨l1, l2, rfl⟩ := List.append_of_mem hog
  unfold linkAgainstOtherRecords
  rw [List.foldl_append, List.foldl_cons]
  apply foldl_preserve (fun st => 1 ≤ countLinksForPair st s.id o.id)
  · intro st x hp
    dsimp only
    split
    · exact hp
    · exact linkOtherSegments_preserve ratio cid
        (fun st2 => 1 ≤ countLinksForPair st2 s.id o.id)
        (fun st2 s2 o2 hp2 =>
          le_trans hp2 (count_linkStep_mono ratio cid s2 o2 st2 s.id o.id))
        s x.2 st hp
  · dsimp only
    rw [if_neg hne]
    exact visit_linkOtherSegments ratio cid s o og.2 _ ho hr

/-- After the loop over a record's segments visits a qualifying pair, at least
one row for the pair is present. -/
theorem visit_linkRecordSegments (ratio : String → String → ℚ) (cid : Nat)
    (groups : List (Nat × List LinkerRow)) (g : Nat × List LinkerRow)
    (s : LinkerRow) (og : Nat × List LinkerRow) (o : LinkerRow)
    (links : List LinkRow) (hs : s ∈ g.2) (hog : og ∈ groups) (hne : og.1 ≠ g.1)
    (ho : o ∈ og.2) (hr : ratio s.text o.text > 9/10) :
    1 ≤ countLinksForPair (linkRecordSegments ratio cid groups g links) s.id o.id := by
  obtain ⟨l1, l2, hsplit⟩ := List.append_of_mem hs
  unfold linkRecordSegments
  rw [hsplit, List.foldl_append, List.foldl_cons]
  apply foldl_preserve (fun st => 1 ≤ countLinksForPair st s.id o.id)
  · intro st x hp
    exact linkAgainstOtherRecords_preserve ratio cid
      (fun st2 => 1 ≤ countLinksForPair st2 s.id o.id)
      (fun st2 s2 o2 hp2 =>
        le_trans hp2 (count_linkStep_mono ratio cid s2 o2 st2 s.id o.id))
      groups g.1 x st hp
  · exact visit_linkAgainstOtherRecords ratio cid groups g.1 s og o _ hog hne ho hr

/-- After the whole pairwise linking loop, every qualifying pair of segments of
two distinct groups has at least one row. -/
theorem visit_generateLinksLoop (ratio : String → String → ℚ) (cid : Nat)
    (groups : List (Nat × List LinkerRow)) (g : Nat × List LinkerRow)
    (s : LinkerRow) (og : Nat × List LinkerRow) (o : LinkerRow)
    (links : List LinkRow) (hg : g ∈ groups) (hs : s ∈ g.2) (hog : og ∈ groups)
    (hne : og.1 ≠ g.1) (ho : o ∈ og.2) (hr : ratio s.text o.text > 9/10) :
    1 ≤ countLinksForPair (generateLinksLoop ratio cid groups links) s.id o.id := by
  obtain ⟨l1, l2, hsplit⟩ := List.append_of_mem hg
  subst hsplit
  unfold generateLinksLoop
  rw [List.foldl_append, List.foldl_cons]
  apply foldl_preserve (fun st => 1 ≤ countLinksForPair st s.id o.id)
  · intro st x hp
    exact linkRecordSegments_preserve ratio cid
      (fun st2 => 1 ≤ countLinksForPair st2 s.id o.id)
      (fun st2 s2 o2 hp2 =>
        le_trans hp2 (count_linkStep_mono ratio cid s2 o2 st2 s.id o.id))
      (l1 ++ g :: l2) x st hp
  · exact visit_linkRecordSegments ratio cid (l1 ++ g :: l2) g s og o _ hs hog hne ho hr

end DocProcAi

namespace DocProcAi

/-- Adding a row under its own key keeps every group member keyed by its
group. -/
theorem addToGroup_keys (k : Nat) (r : LinkerRow) (hr : r.mediaRecordId = k) :
    ∀ (acc : List (Nat × List LinkerRow)),
      (∀ g ∈ acc, ∀ x ∈ g.2, x.mediaRecordId = g.1) →
      ∀ g ∈ addToGroup acc k r, ∀ x ∈ g.2, x.mediaRecordId = g.1 := by
  intro acc
  induction acc with
  | nil =>
    intro _ g hg x hx
    simp only [addToGroup, List.mem_singleton] at hg
    subst hg
    simp only [List.mem_singleton] at hx
    subst hx
    exact hr
  | cons p rest ih =>
    intro hacc g hg x hx
    obtain ⟨k2, rs⟩ := p
    simp only [addToGroup] at hg
    by_cases hk : k2 = k
    · rw [if_pos hk] at hg
      rcases List.mem_cons.mp hg with hg1 | hg2
      · subst hg1
        rcases List.mem_append.mp hx with hx1 | hx2
        · exact hacc (k2, rs) (List.mem_cons_self _ _) x hx1
        · simp only [List.mem_singleton] at hx2
          subst hx2
          rw [hr, hk]
      · exact hacc g (List.mem_cons_of_mem _ hg2) x hx
    · rw [if_neg hk] at hg
      rcases List.mem_cons.mp hg with hg1 | hg2
      · subst hg1
        exact hacc (k2, rs) (List.mem_cons_self _ _) x hx
      · exact ih (fun g2 hg2b => hacc g2 (List.mem_cons_of_mem _ hg2b)) g hg2 x hx

/-- In the media_records_segments dict, every member of a group has the group
key as its media record id. -/
theorem groupByMediaRecord_keys (rows : List LinkerRow) :
    ∀ g ∈ groupByMediaRecord rows, ∀ x ∈ g.2, x.mediaRecordId = g.1 := by
  unfold groupByMediaRecord
  exact foldl_preserve (fun acc => ∀ g ∈ acc, ∀ x ∈ g.2, x.mediaRecordId = g.1)
    (fun acc r => addToGroup acc r.mediaRecordId r)
    (fun acc r hacc => addToGroup_keys r.mediaRecordId r rfl acc hacc)
    rows [] (by simp)

/-- Adding a row creates or extends the entry of its key, so the row is a
member of a group with that key. -/
theorem addToGroup_mem_self (k : Nat) (r : LinkerRow) :
    ∀ acc, ∃ g ∈ addToGroup acc k r, g.1 = k ∧ r ∈ g.2 := by
  intro acc
  induction acc with
  | nil => exact ⟨(k, [r]), by simp [addToGroup], rfl, by simp⟩
  | cons p rest ih =>
    obtain ⟨k2, rs⟩ := p
    by_cases hk : k2 = k
    · refine ⟨(k2, rs ++ [r]), ?_, hk, by simp⟩
      simp only [addToGroup, if_pos hk]
      exact List.mem_cons_self _ _
    · obtain ⟨g, hg, hk2, hr2⟩ := ih
      refine ⟨g, ?_, hk2, hr2⟩
      simp only [addToGroup, if_neg hk]
      exact List.mem_cons_of_mem _ hg

/-- Adding a row never removes a previously grouped member. -/
theorem addToGroup_mem_mono (k : Nat) (r : LinkerRow) (m : Nat) (x : LinkerRow) :
    ∀ acc, (∃ g ∈ acc, g.1 = m ∧ x ∈ g.2) →
      ∃ g ∈ addToGroup acc k r, g.1 = m ∧ x ∈ g.2 := by
  intro acc
  induction acc with
  | nil => intro h; simp at h
  | cons p rest ih =>
    intro h
    obtain ⟨k2, rs⟩ := p
    obtain ⟨g, hg, hm, hx⟩ := h
    rcases List.mem_cons.mp hg with hg1 | hgr
    · subst hg1
      by_cases hk : k2 = k
      · refine ⟨(k2, rs ++ [r]), ?_, hm, List.mem_append_left _ hx⟩
        simp only [addToGroup, if_pos hk]
        exact List.mem_cons_self _ _
      · refine ⟨(k2, rs), ?_, hm, hx⟩
        simp only [addToGroup, if_neg hk]
        exact List.mem_cons_self _ _
    · by_cases hk : k2 = k
      · refine ⟨g, ?_, hm, hx⟩
        simp only [addToGroup, if_pos hk]
        exact List.mem_cons_of_mem _ hgr
      · obtain ⟨g2, hg2, hm2, hx2⟩ := ih ⟨g, hgr, hm, hx⟩
        refine ⟨g2, ?_, hm2, hx2⟩
        simp only [addToGroup, if_neg hk]
        exact List.mem_cons_of_mem _ hg2

/-- Every query row ends up in the dict group of its media record id. -/
theorem groupByMediaRecord_mem (rows : List LinkerRow) (r : LinkerRow)
    (hr : r ∈ rows) :
    ∃ g ∈ groupByMediaRecord rows, g.1 = r.mediaRecordId ∧ r ∈ g.2 := by
  obtain ⟨l1, l2, rfl⟩ := List.append_of_mem hr
  unfold groupByMediaRecord
  rw [List.foldl_append, List.foldl_cons]
  exact foldl_preserve (fun acc => ∃ g ∈ acc, g.1 = r.mediaRecordId ∧ r ∈ g.2)
    (fun acc x => addToGroup acc x.mediaRecordId x)
    (fun acc x hp => addToGroup_mem_mono x.mediaRecordId x r.mediaRecordId r acc hp)
    l2 _ (addToGroup_mem_self r.mediaRecordId r _)

/-- A property of every grouped row lifts through one addToGroup. -/
theorem addToGroup_members (C : LinkerRow → Prop) (k : Nat) (r : LinkerRow) :
    ∀ acc, (∀ g ∈ acc, ∀ x ∈ g.2, C x) → C r →
      ∀ g ∈ addToGroup acc k r, ∀ x ∈ g.2, C x := by
  intro acc
  induction acc with
  | nil =>
    intro _ hr g hg x hx
    simp only [addToGroup, List.mem_singleton] at hg
    subst hg
    simp only [List.mem_singleton] at hx
    subst hx
    exact hr
  | cons p rest ih =>
    intro hacc hr g hg x hx
    obtain ⟨k2, rs⟩ := p
    simp only [addToGroup] at hg
    by_cases hk : k2 = k
    · rw [if_pos hk] at hg
      rcases List.mem_cons.mp hg with hg1 | hg2
      · subst hg1
        rcases List.mem_append.mp hx with hx1 | hx2
        · exact hacc (k2, rs) (List.mem_cons_self _ _) x hx1
        · simp only [List.mem_singleton] at hx2
          subst hx2
          exact hr
      · exact hacc g (List.mem_cons_of_mem _ hg2) x hx
    · rw [if_neg hk] at hg
      rcases List.mem_cons.mp hg with hg1 | hg2
      · subst hg1
        exact hacc (k2, rs) (List.mem_cons_self _ _) x hx
      · exact ih (fun g2 hg2b => hacc g2 (List.mem_cons_of_mem _ hg2b)) hr g hg2 x hx

/-- A property of every folded row holds of every grouped member. -/
theorem groupFold_members (C : LinkerRow → Prop) :
    ∀ (rows : List LinkerRow) (acc : List (Nat × List LinkerRow)),
      (∀ r ∈ rows, C r) → (∀ g ∈ acc, ∀ x ∈ g.2, C x) →
      ∀ g ∈ rows.foldl (fun a r => addToGroup a r.mediaRecordId r) acc,
        ∀ x ∈ g.2, C x := by
  intro rows
  induction rows with
  | nil =>
    intro acc _ hacc
    simpa using hacc
  | cons r rs ih =>
    intro acc hrows hacc
    simp only [List.foldl_cons]
    exact ih _ (fun y hy => hrows y (List.mem_cons_of_mem _ hy))
      (addToGroup_members C r.mediaRecordId r acc hacc (hrows r (List.mem_cons_self _ _)))

/-- Every member of every dict group is one of the grouped query rows. -/
theorem groupByMediaRecord_sub (rows : List LinkerRow) :
    ∀ g ∈ groupByMediaRecord rows, ∀ x ∈ g.2, x ∈ rows :=
  groupFold_members (fun x => x ∈ rows) rows [] (fun _ h => h) (by simp)

end DocProcAi

namespace DocProcAi

/-- One run of the linker turns a missing qualifying pair into exactly one
link row. -/
theorem generate_count_one_of_zero (ratio : String → String → ℚ) (db : DB)
    (content_id : Nat) (media_record_ids : List Nat) (a b : LinkerRow)
    (ha : a ∈ linkerQuery db media_record_ids)
    (hb : b ∈ linkerQuery db media_record_ids)
    (hmid : a.mediaRecordId ≠ b.mediaRecordId)
    (hr : ratio a.text b.text > 9/10)
    (h0 : countLinksForPair db.media_record_links a.id b.id = 0) :
    countLinksForPair
      (generate_content_media_record_links_task ratio db content_id
        media_record_ids).media_record_links a.id b.id = 1 := by
  obtain ⟨ga, hga, hka, haa⟩ :=
    groupByMediaRecord_mem (linkerQuery db media_record_ids) a ha
  obtain ⟨gb, hgb, hkb, hbb⟩ :=
    groupByMediaRecord_mem (linkerQuery db media_record_ids) b hb
  have hne : gb.1 ≠ ga.1 := by
    rw [hka, hkb]
    exact Ne.symm hmid
  unfold generate_content_media_record_links_task
  apply Nat.le_antisymm
  · exact count_loop_le_one ratio content_id _ _ a.id b.id (by omega)
  · exact visit_generateLinksLoop ratio content_id _ ga a gb b
      db.media_record_links hga haa hgb hne hbb hr

/-- One run of the linker keeps an already unique pair unique. -/
theorem generate_count_keeps_one (ratio : String → String → ℚ) (db : DB)
    (content_id : Nat) (media_record_ids : List Nat) (x y : Nat)
    (h1 : countLinksForPair db.media_record_links x y = 1) :
    countLinksForPair
      (generate_content_media_record_links_task ratio db content_id
        media_record_ids).media_record_links x y = 1 := by
  unfold generate_content_media_record_links_task
  apply Nat.le_antisymm
  · exact count_loop_le_one ratio content_id _ _ x y (by omega)
  · exact count_loop_mono ratio content_id _ _ x y 1 (by omega)

/-- Re-running the linker any number of times keeps a unique pair unique. -/
theorem runLinkContentN_keeps_one (ratio : String → String → ℚ)
    (content_id : Nat) (media_record_ids : List Nat) (x y : Nat) :
    ∀ (n : Nat) (db : DB), countLinksForPair db.media_record_links x y = 1 →
      countLinksForPair
        (runLinkContentN ratio db content_id media_record_ids n).media_record_links
        x y = 1 := by
  intro n
  induction n with
  | zero => intro db h1; exact h1
  | succ m ih =>
    intro db h1
    exact ih _ (generate_count_keeps_one ratio db content_id media_record_ids x y h1)

end DocProcAi

/-- C2: for every store, content grouping and pair of query rows a and b of two
distinct media records of the grouping with similarity above 0.9 and no
pre-existing link for the pair, running link_content one or more times leaves
exactly one media_record_links row for the unordered pair (a.id, b.id): the
first run creates it once (the second visit of the pair in the opposite order
is skipped by the undirected existence check), and every re-run is skipped the
same way. -/
theorem link_content_exactly_one_link (ratio : String → String → ℚ)
    (db : DocProcAi.DB) (content_id : Nat) (media_record_ids : List Nat)
    (a b : DocProcAi.LinkerRow)
    (ha : a ∈ DocProcAi.linkerQuery db media_record_ids)
    (hb : b ∈ DocProcAi.linkerQuery db media_record_ids)
    (hmid : a.mediaRecordId ≠ b.mediaRecordId)
    (hr : ratio a.text b.text > 9/10)
    (h0 : DocProcAi.countLinksForPair db.media_record_links a.id b.id = 0)
    (n : Nat) (hn : 1 ≤ n) :
    DocProcAi.countLinksForPair
      (DocProcAi.runLinkContentN ratio db content_id media_record_ids
        n).media_record_links a.id b.id = 1 := by
  obtain ⟨m, rfl⟩ : ∃ m, n = m + 1 := ⟨n - 1, by omega⟩
  unfold DocProcAi.runLinkContentN
  exact DocProcAi.runLinkContentN_keeps_one ratio content_id media_record_ids
    a.id b.id m _
    (DocProcAi.generate_count_one_of_zero ratio db content_id media_record_ids
      a b ha hb hmid hr h0)

/-- Witness for C2: on the concrete two-document store, two runs of the linker
for content 5 leave exactly one link row for the pair of segments 10 and 20. -/
theorem link_content_exactly_one_link_witness :
    DocProcAi.countLinksForPair
      (DocProcAi.runLinkContentN DocProcAi.ratioEq DocProcAi.linkerWitnessDB 5
        [1, 2] 2).media_record_links 10 20 = 1 :=
  link_content_exactly_one_link DocProcAi.ratioEq DocProcAi.linkerWitnessDB 5
    [1, 2]
    (DocProcAi.LinkerRow.mk 10 1 "document" (some 0) none "shared slide")
    (DocProcAi.LinkerRow.mk 20 2 "document" (some 3) none "shared slide")
    (by decide) (by decide) (by decide) (by norm_num [DocProcAi.ratioEq])
    (by decide) 2 (by decide)

namespace DocProcAi

/-- A row found after one linkStep was already present or is the freshly built
row of that step. -/
theorem linkStep_mem_or (ratio : String → String → ℚ) (cid : Nat)
    (s o : LinkerRow) (links : List LinkRow) (l : LinkRow)
    (hl : l ∈ linkStep ratio cid s o links) :
    l ∈ links ∨ l = LinkRow.mk cid s.id o.id := by
  unfold linkStep at hl
  split at hl
  · exact Or.inl hl
  · split at hl
    · unfold create_link_between_media_record_segments at hl
      rcases List.mem_append.mp hl with h1 | h2
      · exact Or.inl h1
      · simp only [List.mem_singleton] at h2
        exact Or.inr h2
    · exact Or.inl hl

/-- A row found after the innermost loop was already present or was built for
the fixed segment and one of the visited other segments. -/
theorem linkOtherSegments_mem_or (ratio : String → String → ℚ) (cid : Nat)
    (s : LinkerRow) (others : List LinkerRow) (links : List LinkRow) (l : LinkRow)
    (hl : l ∈ linkOtherSegments ratio cid s others links) :
    l ∈ links ∨ ∃ o ∈ others, l = LinkRow.mk cid s.id o.id :=
  foldl_provenance (fun st o => linkStep ratio cid s o st) (fun st => l ∈ st)
    (fun o => l = LinkRow.mk cid s.id o.id)
    (fun st o h => linkStep_mem_or ratio cid s o st l h) others links hl

/-- A row found after the loop over the other media records was already present
or was built for a group with a key different from the current record. -/
theorem linkAgainstOtherRecords_mem_or (ratio : String → String → ℚ) (cid : Nat)
    (groups : List (Nat × List LinkerRow)) (mid : Nat) (s : LinkerRow)
    (links : List LinkRow) (l : LinkRow)
    (hl : l ∈ linkAgainstOtherRecords ratio cid groups mid s links) :
    l ∈ links ∨ ∃ og ∈ groups, og.1 ≠ mid ∧ ∃ o ∈ og.2, l = LinkRow.mk cid s.id o.id := by
  apply foldl_provenance _ (fun st => l ∈ st)
    (fun og => og.1 ≠ mid ∧ ∃ o ∈ og.2, l = LinkRow.mk cid s.id o.id)
    _ groups links hl
  intro st og h
  by_cases hk : og.1 = mid
  · rw [if_pos hk] at h
    exact Or.inl h
  · rw [if_neg hk] at h
    rcases linkOtherSegments_mem_or ratio cid s og.2 st l h with h1 | ⟨o, ho, rfl⟩
    · exact Or.inl h1
    · exact Or.inr ⟨hk, o, ho, rfl⟩

/-- A row found after the loop over one record's segments was already present
or was built for one of its segments against a group with a different key. -/
theorem linkRecordSegments_mem_or (ratio : String → String → ℚ) (cid : Nat)
    (groups : List (Nat × List LinkerRow)) (g : Nat × List LinkerRow)
    (links : List LinkRow) (l : LinkRow)
    (hl : l ∈ linkRecordSegments ratio cid groups g links) :
    l ∈ links ∨ ∃ s ∈ g.2, ∃ og ∈ groups, og.1 ≠ g.1 ∧
      ∃ o ∈ og.2, l = LinkRow.mk cid s.id o.id := by
  apply foldl_provenance _ (fun st => l ∈ st)
    (fun s => ∃ og ∈ groups, og.1 ≠ g.1 ∧ ∃ o ∈ og.2, l = LinkRow.mk cid s.id o.id)
    _ g.2 links hl
  intro st s h
  rcases linkAgainstOtherRecords_mem_or ratio cid groups g.1 s st l h with
    h1 | ⟨og, hog, hne, o, ho, rfl⟩
  · exact Or.inl h1
  · exact Or.inr ⟨og, hog, hne, o, ho, rfl⟩

/-- A row found after the whole pairwise loop was already present or was built
for a segment of some group against a segment of a group with a different key. -/
theorem generateLinksLoop_mem_or (ratio : String → String → ℚ) (cid : Nat)
    (groups : List (Nat × List LinkerRow)) (links : List LinkRow) (l : LinkRow)
    (hl : l ∈ generateLinksLoop ratio cid groups links) :
    l ∈ links ∨ ∃ g ∈ groups, ∃ s ∈ g.2, ∃ og ∈ groups, og.1 ≠ g.1 ∧
      ∃ o ∈ og.2, l = LinkRow.mk cid s.id o.id := by
  apply foldl_provenance _ (fun st => l ∈ st)
    (fun g => ∃ s ∈ g.2, ∃ og ∈ groups, og.1 ≠ g.1 ∧
      ∃ o ∈ og.2, l = LinkRow.mk cid s.id o.id)
    _ groups links hl
  intro st g h
  rcases linkRecordSegments_mem_or ratio cid groups g st l h with
    h1 | ⟨s, hs, og, hog, hne, o, ho, rfl⟩
  · exact Or.inl h1
  · exact Or.inr ⟨s, hs, og, hog, hne, o, ho, rfl⟩

end DocProcAi

/-- C6: every media_record_links row that a run of link_content adds carries
the content id of the run and joins two query rows of distinct media records:
the nested loops skip the dict entry equal to the current record, so no link is
ever created between two segments of the same media record. -/
theorem link_content_links_only_distinct_records (ratio : String → String → ℚ)
    (db : DocProcAi.DB) (content_id : Nat) (media_record_ids : List Nat)
    (l : DocProcAi.LinkRow)
    (hl : l ∈ (DocProcAi.generate_content_media_record_links_task ratio db
      content_id media_record_ids).media_record_links)
    (hnew : l ∉ db.media_record_links) :
    l.content_id = content_id ∧
      ∃ s ∈ DocProcAi.linkerQuery db media_record_ids,
        ∃ o ∈ DocProcAi.linkerQuery db media_record_ids,
          s.mediaRecordId ≠ o.mediaRecordId ∧
          l.segment1_id = s.id ∧ l.segment2_id = o.id := by
  unfold DocProcAi.generate_content_media_record_links_task at hl
  rcases DocProcAi.generateLinksLoop_mem_or ratio content_id _ _ l hl with
    h1 | ⟨g, hg, s, hs, og, hog, hne, o, ho, rfl⟩
  · exact absurd h1 hnew
  · refine ⟨rfl, s, ?_, o, ?_, ?_, rfl, rfl⟩
    · exact DocProcAi.groupByMediaRecord_sub _ g hg s hs
    · exact DocProcAi.groupByMediaRecord_sub _ og hog o ho
    · rw [DocProcAi.groupByMediaRecord_keys _ g hg s hs,
          DocProcAi.groupByMediaRecord_keys _ og hog o ho]
      exact fun h => hne (h.symm)

/-- Witness for C6: on the concrete two-document store, the link created by a
run for content 5 joins the rows of segments 10 and 20, which belong to the
distinct media records 1 and 2. -/
theorem link_content_links_only_distinct_records_witness :
    (DocProcAi.LinkRow.mk 5 10 20).content_id = 5 ∧
      ∃ s ∈ DocProcAi.linkerQuery DocProcAi.linkerWitnessDB [1, 2],
        ∃ o ∈ DocProcAi.linkerQuery DocProcAi.linkerWitnessDB [1, 2],
          s.mediaRecordId ≠ o.mediaRecordId ∧
          (DocProcAi.LinkRow.mk 5 10 20).segment1_id = s.id ∧
          (DocProcAi.LinkRow.mk 5 10 20).segment2_id = o.id :=
  link_content_links_only_distinct_records DocProcAi.ratioEq
    DocProcAi.linkerWitnessDB 5 [1, 2] (DocProcAi.LinkRow.mk 5 10 20)
    (by norm_num [DocProcAi.generate_content_media_record_links_task,
      DocProcAi.linkerWitnessDB, DocProcAi.linkerQuery, DocProcAi.groupByMediaRecord,
      DocProcAi.addToGroup, DocProcAi.generateLinksLoop, DocProcAi.linkRecordSegments,
      DocProcAi.linkAgainstOtherRecords, DocProcAi.linkOtherSegments,
      DocProcAi.linkStep, DocProcAi.ratioEq,
      DocProcAi.does_link_between_media_record_segments_exist,
      DocProcAi.linkMatchesPair, DocProcAi.create_link_between_media_record_segments])
    (by decide)

namespace DocProcAi

/-- Collected segment ids only grow along the collection fold. -/
theorem collect_ids_grows (ls : List LinkRow) (y : Nat) :
    ∀ acc, y ∈ acc →
      y ∈ ls.foldl (fun acc x => acc ++ [x.segment1_id, x.segment2_id]) acc :=
  foldl_preserve (fun acc => y ∈ acc)
    (fun acc x => acc ++ [x.segment1_id, x.segment2_id])
    (fun acc x hy => List.mem_append_left _ hy) ls

/-- Both segment ids of every link of the list are collected by the fold of
get_media_record_links_for_content. -/
theorem mem_collect_ids (ls : List LinkRow) (l : LinkRow) (hl : l ∈ ls) :
    ∀ acc,
      l.segment1_id ∈
        ls.foldl (fun acc x => acc ++ [x.segment1_id, x.segment2_id]) acc ∧
      l.segment2_id ∈
        ls.foldl (fun acc x => acc ++ [x.segment1_id, x.segment2_id]) acc := by
  induction ls with
  | nil => simp at hl
  | cons x xs ih =>
    intro acc
    simp only [List.foldl_cons]
    rcases List.mem_cons.mp hl with h1 | hmem
    · subst h1
      constructor
      · apply collect_ids_grows
        simp
      · apply collect_ids_grows
        simp
    · exact ih hmem _

/-- Normalization does not change the id of a fetched segment row. -/
theorem normalizeSegmentRow_id (r : SegmentResultRow) :
    (normalizeSegmentRow r).id = r.id := by
  unfold normalizeSegmentRow
  split
  · rfl
  · split
    · rfl
    · rfl

/-- The comprehension of get_media_record_links_for_content succeeds when both
segment lookups succeed for every link. -/
theorem buildLinkPairs_ok (segments : List SegmentResultRow) :
    ∀ (ls : List LinkRow),
      (∀ l ∈ ls, (segments.find? (fun x => x.id = l.segment1_id)).isSome ∧
        (segments.find? (fun x => x.id = l.segment2_id)).isSome) →
      ∃ pairs, buildLinkPairs segments ls = Except.ok pairs := by
  intro ls
  induction ls with
  | nil => exact fun _ => ⟨[], rfl⟩
  | cons l ls ih =>
    intro h
    obtain ⟨h1, h2⟩ := h l (List.mem_cons_self _ _)
    obtain ⟨s1, hs1⟩ := Option.isSome_iff_exists.mp h1
    obtain ⟨s2, hs2⟩ := Option.isSome_iff_exists.mp h2
    obtain ⟨rest, hrest⟩ := ih (fun y hy => h y (List.mem_cons_of_mem _ hy))
    refine ⟨(s1, s2) :: rest, ?_⟩
    simp only [buildLinkPairs, hs1, hs2, hrest]

end DocProcAi

/-- C7 counterexample: the claim states get_links(content_id) returns normally
even when a stored link references segment ids absent from both tables. On the
store with one link of content 7 referencing the nonexistent segments 1 and 2,
the segment lookup generator is exhausted and next raises StopIteration: the
call fails instead of returning a result. -/
theorem get_links_raises_on_dangling_reference :
    DocProcAi.get_media_record_links_for_content DocProcAi.getLinksDanglingDB 7
      = Except.error "StopIteration" := by
  rfl

/-- C7 amended: get_links(content_id) returns normally provided every segment
id referenced by a link of that content is present among the documents or
videos rows; a link referencing a missing segment id instead raises
StopIteration from the next call of the result comprehension. -/
theorem get_links_returns_ok_when_segments_exist (db : DocProcAi.DB)
    (content_id : Nat)
    (h : ∀ l ∈ db.media_record_links, l.content_id = content_id →
      ((∃ d ∈ db.documents, d.id = l.segment1_id) ∨
        (∃ v ∈ db.videos, v.id = l.segment1_id)) ∧
      ((∃ d ∈ db.documents, d.id = l.segment2_id) ∨
        (∃ v ∈ db.videos, v.id = l.segment2_id))) :
    ∃ pairs, DocProcAi.get_media_record_links_for_content db content_id
      = Except.ok pairs := by
  unfold DocProcAi.get_media_record_links_for_content
  apply DocProcAi.buildLinkPairs_ok
  intro l hl
  have hmem : l ∈ db.media_record_links := (List.mem_filter.mp hl).1
  have hc : l.content_id = content_id := by
    have := (List.mem_filter.mp hl).2
    simpa using this
  obtain ⟨hx1, hx2⟩ := h l hmem hc
  obtain ⟨hin1, hin2⟩ :=
    DocProcAi.mem_collect_ids (db.media_record_links.filter
      (fun x => x.content_id = content_id)) l hl []
  constructor
  · rw [List.find?_isSome]
    rcases hx1 with ⟨d, hd, hid⟩ | ⟨v, hv, hid⟩
    · refine ⟨DocProcAi.normalizeSegmentRow (DocProcAi.segmentRowOfDocument d), ?_, ?_⟩
      · apply List.mem_map_of_mem
        apply List.mem_append_left
        apply List.mem_map_of_mem
        rw [List.mem_filter]
        refine ⟨hd, ?_⟩
        simpa [hid] using hin1
      · simp [DocProcAi.normalizeSegmentRow_id, DocProcAi.segmentRowOfDocument, hid]
    · refine ⟨DocProcAi.normalizeSegmentRow (DocProcAi.segmentRowOfVideo v), ?_, ?_⟩
      · apply List.mem_map_of_mem
        apply List.mem_append_right
        apply List.mem_map_of_mem
        rw [List.mem_filter]
        refine ⟨hv, ?_⟩
        simpa [hid] using hin1
      · simp [DocProcAi.normalizeSegmentRow_id, DocProcAi.segmentRowOfVideo, hid]
  · rw [List.find?_isSome]
    rcases hx2 with ⟨d, hd, hid⟩ | ⟨v, hv, hid⟩
    · refine ⟨DocProcAi.normalizeSegmentRow (DocProcAi.segmentRowOfDocument d), ?_, ?_⟩
      · apply List.mem_map_of_mem
        apply List.mem_append_left
        apply List.mem_map_of_mem
        rw [List.mem_filter]
        refine ⟨hd, ?_⟩
        simpa [hid] using hin2
      · simp [DocProcAi.normalizeSegmentRow_id, DocProcAi.segmentRowOfDocument, hid]
    · refine ⟨DocProcAi.normalizeSegmentRow (DocProcAi.segmentRowOfVideo v), ?_, ?_⟩
      · apply List.mem_map_of_mem
        apply List.mem_append_right
        apply List.mem_map_of_mem
        rw [List.mem_filter]
        refine ⟨hv, ?_⟩
        simpa [hid] using hin2
      · simp [DocProcAi.normalizeSegmentRow_id, DocProcAi.segmentRowOfVideo, hid]

/-- Witness for the amended C7: on the store whose single link of content 7
references the existing segments 10 and 20, get_links returns normally. -/
theorem get_links_returns_ok_when_segments_exist_witness :
    ∃ pairs, DocProcAi.get_media_record_links_for_content DocProcAi.getLinksOkDB 7
      = Except.ok pairs :=
  get_links_returns_ok_when_segments_exist DocProcAi.getLinksOkDB 7 (by decide)

/-- C8 counterexample: the claim states the ingestion of an unsupported type
fails with an UnsupportedMediaTypeError. Ingesting a record of type QUIZ fails
with a ValueError naming the type; the error does not belong to the
UnsupportedMediaTypeError class the spec names, since the source raises the
builtin ValueError. -/
theorem ingest_quiz_raises_valueError :
    DocProcAi.ingest_media_record_task (DocProcAi.DB.mk [] [] []) 1 "QUIZ" [] []
        id id
      = Except.error (DocProcAi.PyError.valueError
          "Asked to ingest unsupported media record type of type QUIZ") ∧
    ∀ e, DocProcAi.ingest_media_record_task (DocProcAi.DB.mk [] [] []) 1 "QUIZ"
        [] [] id id = Except.error e →
      e.isUnsupportedMediaTypeError = false := by
  refine ⟨rfl, ?_⟩
  intro e he
  rw [show DocProcAi.ingest_media_record_task (DocProcAi.DB.mk [] [] []) 1 "QUIZ"
      [] [] id id
    = Except.error (DocProcAi.PyError.valueError
        "Asked to ingest unsupported media record type of type QUIZ") from rfl] at he
  injection he with h2
  subst h2
  rfl

/-- C8 amended: for every store and record whose resolved type is neither
DOCUMENT, PRESENTATION nor VIDEO, the ingestion task fails with a ValueError
whose message names the offending type, and the store is untouched: the raise
happens before any INSERT, so the task yields an error instead of a new
store. -/
theorem ingest_unsupported_type_fails_without_writes (db : DocProcAi.DB)
    (media_record_id : Nat) (record_type : String)
    (pdfResults : List DocProcAi.PdfEmbeddingResult)
    (videoResults : List DocProcAi.VideoEmbeddingResult)
    (docIdGen videoIdGen : Nat → Nat)
    (h1 : record_type ≠ "PRESENTATION") (h2 : record_type ≠ "DOCUMENT")
    (h3 : record_type ≠ "VIDEO") :
    DocProcAi.ingest_media_record_task db media_record_id record_type pdfResults
        videoResults docIdGen videoIdGen
      = Except.error (DocProcAi.PyError.valueError
          ("Asked to ingest unsupported media record type of type " ++ record_type)) := by
  unfold DocProcAi.ingest_media_record_task
  rw [if_neg (not_or.mpr ⟨h1, h2⟩), if_neg h3]

/-- Witness for the amended C8: ingestion of a QUIZ record fails with the
ValueError naming QUIZ. -/
theorem ingest_unsupported_type_fails_without_writes_witness :
    DocProcAi.ingest_media_record_task (DocProcAi.DB.mk [] [] []) 1 "QUIZ" [] []
        id id
      = Except.error (DocProcAi.PyError.valueError
          ("Asked to ingest unsupported media record type of type " ++ "QUIZ")) :=
  ingest_unsupported_type_fails_without_writes (DocProcAi.DB.mk [] [] []) 1
    "QUIZ" [] [] id id (by decide) (by decide) (by decide)

namespace DocProcAi

/-- Normalization does not change the score of a search result row. -/
theorem normalizeSearchRow_score (r : SearchResultRow) :
    (normalizeSearchRow r).score = r.score := by
  unfold normalizeSearchRow
  split
  · rfl
  · split
    · rfl
    · rfl

end DocProcAi

/-- C9: for every store, distance function, query embedding, count and filter
lists, semantic_search returns min(count, pool size) results, where the pool is
the whitelist-and-blacklist filtered candidate set, and the scores of the
returned results are in non-decreasing order. -/
theorem semantic_search_bounded_and_sorted (db : DocProcAi.DB)
    (dist : List ℚ → List ℚ → ℚ) (query_embedding : List ℚ) (count : Nat)
    (blacklist whitelist : List Nat) :
    (DocProcAi.semantic_search db dist query_embedding count blacklist
        whitelist).length
      = min count (DocProcAi.searchCandidates db dist query_embedding blacklist
          whitelist).length ∧
    List.Pairwise (fun x y => x.1 ≤ y.1)
      (DocProcAi.semantic_search db dist query_embedding count blacklist
        whitelist) := by
  constructor
  · unfold DocProcAi.semantic_search
    simp [List.length_take, List.length_mergeSort]
  · unfold DocProcAi.semantic_search
    have h1 := @List.sorted_mergeSort DocProcAi.SearchResultRow
      (fun x y => decide (x.score ≤ y.score))
      (fun a b c hab hbc => by
        simp only [decide_eq_true_eq] at hab hbc ⊢
        exact le_trans hab hbc)
      (fun a b => by
        simp only [Bool.or_eq_true, decide_eq_true_eq]
        exact le_total a.score b.score)
      (DocProcAi.searchCandidates db dist query_embedding blacklist whitelist)
    have h2 : List.Pairwise
        (fun x y : DocProcAi.SearchResultRow => x.score ≤ y.score)
        (((DocProcAi.searchCandidates db dist query_embedding blacklist
              whitelist).mergeSort
            (fun x y => decide (x.score ≤ y.score))).take count) := by
      apply List.Pairwise.sublist (List.take_sublist _ _)
      apply List.Pairwise.imp _ h1
      intro a b hab
      simpa using hab
    have h3 : List.Pairwise
        (fun x y : DocProcAi.SearchResultRow => x.score ≤ y.score)
        ((((DocProcAi.searchCandidates db dist query_embedding blacklist
              whitelist).mergeSort
            (fun x y => decide (x.score ≤ y.score))).take count).map
          DocProcAi.normalizeSearchRow) := by
      apply List.Pairwise.map _ _ h2
      intro a b hab
      rw [DocProcAi.normalizeSearchRow_score, DocProcAi.normalizeSearchRow_score]
      exact hab
    apply List.Pairwise.map _ _ h3
    intro a b hab
    exact hab

/-- C3: the claim states a raising task does not terminate the worker. The
task execution in _background_task_runner stands outside the try statement,
whose only handler catches queue.Empty, so the first raising task ends the
loop: with a failing ingestion task queued ahead of a succeeding task, the
worker starts only the failing one and the second queued task is never
executed. -/
theorem background_task_runner_stops_on_exception :
    DocProcAi.backgroundTaskRunnerExecutes
        [Except.error "ValueError: unsupported media record type QUIZ",
         Except.ok ()]
      = [Except.error "ValueError: unsupported media record type QUIZ"] ∧
    Except.ok ()
      ∉ DocProcAi.backgroundTaskRunnerExecutes
          [Except.error "ValueError: unsupported media record type QUIZ",
           Except.ok ()] := by
  constructor
  · rfl
  · simp [DocProcAi.backgroundTaskRunnerExecutes]


namespace DocProcAi

/-- Reading off the written position after a set. -/
theorem getD_set_self (l : List BackgroundTaskItem) (i : Nat)
    (a : BackgroundTaskItem) (h : i < l.length) :
    (l.set i a).getD i default = a := by
  simp [List.getD_eq_getElem?_getD, List.getElem?_set, h]

/-- Reading off another position after a set. -/
theorem getD_set_ne (l : List BackgroundTaskItem) (i j : Nat)
    (a : BackgroundTaskItem) (h : i ≠ j) :
    (l.set i a).getD j default = l.getD j default := by
  simp [List.getD_eq_getElem?_getD, List.getElem?_set_ne h]

/-- Writing back the element already at a position changes nothing. -/
theorem set_getD_self (l : List BackgroundTaskItem) (i : Nat) (h : i < l.length) :
    l.set i (l.getD i default) = l := by
  apply List.ext_getElem?
  intro n
  rw [List.getElem?_set]
  by_cases he : i = n
  · subst he
    simp [h, List.getD_eq_getElem l default h, List.getElem?_eq_getElem h]
  · simp [he]

/-- Duplicating position j into position i and then overwriting position j is,
up to permutation, just overwriting position i. -/
theorem set_set_swap_perm (l : List BackgroundTaskItem) (i j : Nat)
    (b : BackgroundTaskItem) (hij : i ≠ j) (hi : i < l.length)
    (hj : j < l.length) :
    ((l.set i (l.getD j default)).set j b).Perm (l.set i b) := by
  rw [List.perm_iff_count]
  intro a
  have hj2 : j < (l.set i (l.getD j default)).length := by simpa using hj
  rw [List.count_set b a _ j hj2, List.count_set (l.getD j default) a l i hi,
      List.count_set b a l i hi]
  have hgj : (l.set i (l.getD j default))[j] = l[j] := by
    have h1 := @List.getElem?_set_ne _ l i j hij (l.getD j default)
    rw [List.getElem?_eq_getElem hj2, List.getElem?_eq_getElem hj] at h1
    exact Option.some.inj h1
  rw [hgj, List.getD_eq_getElem l default hj]
  split_ifs <;> omega

/-- The bubble-up loop permutes the array into the array with the held item
written at the starting position. -/
theorem siftdownLoop_perm (newitem : BackgroundTaskItem) :
    ∀ (fuel : Nat) (heap : List BackgroundTaskItem) (startpos pos : Nat),
      pos < heap.length →
      (heapqSiftdownLoop fuel heap newitem startpos pos).Perm (heap.set pos newitem) := by
  intro fuel
  induction fuel with
  | zero => intro heap startpos pos _; exact List.Perm.refl _
  | succ f ih =>
    intro heap startpos pos hpos
    unfold heapqSiftdownLoop
    by_cases hs : startpos < pos
    · rw [if_pos hs]
      by_cases hlt : BackgroundTaskItem.lt newitem
          (heap.getD ((pos - 1) / 2) default) = true
      · rw [if_pos hlt]
        have hpp : (pos - 1) / 2 < (heap.set pos (heap.getD ((pos - 1) / 2) default)).length := by
          rw [List.length_set]
          omega
        refine (ih _ startpos ((pos - 1) / 2) hpp).trans ?_
        exact set_set_swap_perm heap pos ((pos - 1) / 2) newitem (by omega) hpos (by omega)
      · rw [if_neg hlt]
    · rw [if_neg hs]

/-- heapq._siftdown permutes the array. -/
theorem heapqSiftdown_perm (heap : List BackgroundTaskItem) (startpos pos : Nat)
    (h : pos < heap.length) :
    (heapqSiftdown heap startpos pos).Perm heap := by
  unfold heapqSiftdown
  have := siftdownLoop_perm (heap.getD pos default) pos heap startpos pos h
  rwa [set_getD_self heap pos h] at this

/-- The chosen child is in range when the left child is. -/
theorem heapqChildpos_lt (heap : List BackgroundTaskItem) (endpos pos : Nat)
    (h : 2 * pos + 1 < endpos) : heapqChildpos heap endpos pos < endpos := by
  unfold heapqChildpos
  split
  · next h2 => exact h2.1
  · exact h

/-- The chosen child lies strictly below the hole. -/
theorem heapqChildpos_gt (heap : List BackgroundTaskItem) (endpos pos : Nat) :
    pos < heapqChildpos heap endpos pos := by
  unfold heapqChildpos
  split <;> omega

/-- The descent loop of _siftup preserves the array length and keeps the hole
position in bounds. -/
theorem siftupLoop_shape :
    ∀ (fuel : Nat) (heap : List BackgroundTaskItem) (endpos pos : Nat),
      pos < heap.length → endpos ≤ heap.length →
      (heapqSiftupLoop fuel heap endpos pos).1.length = heap.length ∧
      (heapqSiftupLoop fuel heap endpos pos).2 < heap.length := by
  intro fuel
  induction fuel with
  | zero => intro heap endpos pos hpos _; exact ⟨rfl, hpos⟩
  | succ f ih =>
    intro heap endpos pos hpos hend
    unfold heapqSiftupLoop
    by_cases hc : 2 * pos + 1 < endpos
    · rw [if_pos hc]
      have hclt : heapqChildpos heap endpos pos < endpos := heapqChildpos_lt heap endpos pos hc
      have := ih (heap.set pos (heap.getD (heapqChildpos heap endpos pos) default))
        endpos (heapqChildpos heap endpos pos)
        (by rw [List.length_set]; omega) (by rw [List.length_set]; exact hend)
      rw [List.length_set] at this
      exact this
    · rw [if_neg hc]
      exact ⟨rfl, hpos⟩

/-- The descent loop of _siftup, with the held item written at the final hole,
permutes the array into the array with the held item written at the starting
hole. -/
theorem siftupLoop_perm (b : BackgroundTaskItem) :
    ∀ (fuel : Nat) (heap : List BackgroundTaskItem) (endpos pos : Nat),
      pos < heap.length → endpos ≤ heap.length →
      ((heapqSiftupLoop fuel heap endpos pos).1.set
        (heapqSiftupLoop fuel heap endpos pos).2 b).Perm (heap.set pos b) := by
  intro fuel
  induction fuel with
  | zero => intro heap endpos pos _ _; exact List.Perm.refl _
  | succ f ih =>
    intro heap endpos pos hpos hend
    unfold heapqSiftupLoop
    by_cases hc : 2 * pos + 1 < endpos
    · rw [if_pos hc]
      have hclt : heapqChildpos heap endpos pos < endpos := heapqChildpos_lt heap endpos pos hc
      have hrec := ih (heap.set pos (heap.getD (heapqChildpos heap endpos pos) default))
        endpos (heapqChildpos heap endpos pos)
        (by rw [List.length_set]; omega) (by rw [List.length_set]; exact hend)
      refine hrec.trans ?_
      refine set_set_swap_perm heap pos (heapqChildpos heap endpos pos) b ?_ hpos (by omega)
      have := heapqChildpos_gt heap endpos pos
      omega
    · rw [if_neg hc]

/-- heapq._siftup at the root permutes the array. -/
theorem heapqSiftup_perm (heap : List BackgroundTaskItem) (h0 : 0 < heap.length) :
    (heapqSiftup heap 0).Perm heap := by
  unfold heapqSiftup
  have hshape := siftupLoop_shape heap.length heap heap.length 0 h0 (le_refl _)
  have hperm := siftupLoop_perm (heap.getD 0 default) heap.length heap heap.length
    0 h0 (le_refl _)
  refine (heapqSiftdown_perm _ _ _ ?_).trans ?_
  · rw [List.length_set, hshape.1]
    exact hshape.2
  · rw [set_getD_self heap 0 h0] at hperm
    exact hperm

/-- The item comparison is the strict priority order. -/
theorem lt_iff (a b : BackgroundTaskItem) :
    BackgroundTaskItem.lt a b = true ↔ a.priority < b.priority := by
  simp [BackgroundTaskItem.lt]

/-- Writing the held item at the final position of a bubble-up yields a heap,
provided the edges not into that position hold, its children dominate the held
item, and its parent (when it has one) is dominated by the held item. -/
theorem siftdown_write_heapProp (heap : List BackgroundTaskItem)
    (newitem : BackgroundTaskItem) (pos : Nat) (hpos : pos < heap.length)
    (hU1 : ∀ c, 0 < c → c < heap.length → c ≠ pos → (c - 1) / 2 ≠ pos →
      (heap.getD ((c - 1) / 2) default).priority ≤ (heap.getD c default).priority)
    (hU2 : ∀ c, 0 < c → c < heap.length → (c - 1) / 2 = pos →
      newitem.priority ≤ (heap.getD c default).priority)
    (hTop : pos = 0 ∨
      (heap.getD ((pos - 1) / 2) default).priority ≤ newitem.priority) :
    HeapProp (heap.set pos newitem) := by
  intro c hc hc0
  rw [List.length_set] at hc
  by_cases hcp : c = pos
  · subst hcp
    have hppne : (c - 1) / 2 ≠ c := by omega
    rw [getD_set_ne heap c ((c - 1) / 2) newitem (fun h => hppne h.symm),
        getD_set_self heap c newitem hpos]
    rcases hTop with h0 | hle
    · omega
    · exact hle
  · by_cases hpp : (c - 1) / 2 = pos
    · rw [hpp, getD_set_self heap pos newitem hpos,
          getD_set_ne heap pos c newitem (fun h => hcp h.symm)]
      exact hU2 c hc0 hc hpp
    · rw [getD_set_ne heap pos ((c - 1) / 2) newitem (fun h => hpp h.symm),
          getD_set_ne heap pos c newitem (fun h => hcp h.symm)]
      exact hU1 c hc0 hc hcp hpp

/-- The bubble-up loop of _siftdown restores the heap invariant, given the
invariant of a heap with a hole at pos holding the item: edges not into pos
hold, children of pos dominate the held item, and children of pos dominate
the parent of pos. -/
theorem siftdownLoop_heapProp (newitem : BackgroundTaskItem) :
    ∀ (fuel : Nat) (heap : List BackgroundTaskItem) (pos : Nat),
      pos < heap.length → pos ≤ fuel →
      (∀ c, 0 < c → c < heap.length → c ≠ pos → (c - 1) / 2 ≠ pos →
        (heap.getD ((c - 1) / 2) default).priority ≤ (heap.getD c default).priority) →
      (∀ c, 0 < c → c < heap.length → (c - 1) / 2 = pos →
        newitem.priority ≤ (heap.getD c default).priority) →
      (0 < pos → ∀ c, 0 < c → c < heap.length → (c - 1) / 2 = pos →
        (heap.getD ((pos - 1) / 2) default).priority ≤ (heap.getD c default).priority) →
      HeapProp (heapqSiftdownLoop fuel heap newitem 0 pos) := by
  intro fuel
  induction fuel with
  | zero =>
    intro heap pos hpos hfuel hU1 hU2 _
    have hpos0 : pos = 0 := by omega
    exact siftdown_write_heapProp heap newitem pos hpos hU1 hU2 (Or.inl hpos0)
  | succ f ih =>
    intro heap pos hpos hfuel hU1 hU2 hU3
    unfold heapqSiftdownLoop
    by_cases hs : 0 < pos
    · rw [if_pos hs]
      by_cases hlt : BackgroundTaskItem.lt newitem
          (heap.getD ((pos - 1) / 2) default) = true
      · rw [if_pos hlt]
        have hltp : newitem.priority < (heap.getD ((pos - 1) / 2) default).priority :=
          (lt_iff _ _).mp hlt
        have hppos : (pos - 1) / 2 < pos := by omega
        apply ih
        · rw [List.length_set]; omega
        · omega
        · intro c hc0 hc hcp hcpp
          rw [List.length_set] at hc
          by_cases hceq : c = pos
          · subst hceq
            exact absurd rfl hcpp
          · by_cases hcc : (c - 1) / 2 = pos
            · have hcgt : pos < c := by omega
              rw [hcc, getD_set_self heap pos _ hpos,
                  getD_set_ne heap pos c _ (by omega)]
              exact hU3 hs c hc0 hc hcc
            · rw [getD_set_ne heap pos ((c - 1) / 2) _ (fun h => hcc h.symm),
                  getD_set_ne heap pos c _ (fun h => hceq h.symm)]
              exact hU1 c hc0 hc hceq hcc
        · intro c hc0 hc hcc
          rw [List.length_set] at hc
          by_cases hceq : c = pos
          · subst hceq
            rw [getD_set_self heap c _ hpos]
            omega
          · rw [getD_set_ne heap pos c _ (fun h => hceq h.symm)]
            have hedge : (heap.getD ((c - 1) / 2) default).priority
                ≤ (heap.getD c default).priority := by
              apply hU1 c hc0 hc hceq
              omega
            rw [hcc] at hedge
            omega
        · intro hpp0 c hc0 hc hcc
          rw [List.length_set] at hc
          have hpppos : ((pos - 1) / 2 - 1) / 2 ≠ pos := by omega
          rw [getD_set_ne heap pos (((pos - 1) / 2 - 1) / 2) _ (fun h => hpppos h.symm)]
          have hpedge : (heap.getD (((pos - 1) / 2 - 1) / 2) default).priority
              ≤ (heap.getD ((pos - 1) / 2) default).priority := by
            apply hU1 ((pos - 1) / 2) hpp0 (by omega) (by omega) (by omega)
          by_cases hceq : c = pos
          · subst hceq
            rw [getD_set_self heap c _ hpos]
            omega
          · rw [getD_set_ne heap pos c _ (fun h => hceq h.symm)]
            have hedge : (heap.getD ((pos - 1) / 2) default).priority
                ≤ (heap.getD c default).priority := by
              have h5 := hU1 c hc0 hc hceq (by omega)
              rw [hcc] at h5
              exact h5
            omega
      · rw [if_neg hlt]
        apply siftdown_write_heapProp heap newitem pos hpos hU1 hU2
        right
        have hnl : ¬ newitem.priority < (heap.getD ((pos - 1) / 2) default).priority := by
          rw [← lt_iff]
          exact hlt
        omega
    · rw [if_neg hs]
      exact siftdown_write_heapProp heap newitem pos hpos hU1 hU2 (Or.inl (by omega))

end DocProcAi

namespace DocProcAi

/-- heappush permutes the queue contents into the old contents plus the new
item. -/
theorem heappush_perm (heap : List BackgroundTaskItem) (item : BackgroundTaskItem) :
    (heappush heap item).Perm (item :: heap) := by
  unfold heappush
  have hlen : (heap ++ [item]).length - 1 < (heap ++ [item]).length := by
    simp
  exact (heapqSiftdown_perm _ _ _ hlen).trans (List.perm_append_singleton item heap)

/-- heappop returns an item and remainder that together permute the old queue
contents. -/
theorem heappop_perm (heap : List BackgroundTaskItem) (x : BackgroundTaskItem)
    (rest : List BackgroundTaskItem) (hp : heappop heap = some (x, rest)) :
    (x :: rest).Perm heap := by
  match heap with
  | [] => exact absurd hp (by simp [heappop])
  | x0 :: xs =>
    unfold heappop at hp
    simp only at hp
    match hd : (x0 :: xs).dropLast with
    | [] =>
      rw [hd] at hp
      simp only [Option.some.injEq, Prod.mk.injEq] at hp
      obtain ⟨hx, hrest⟩ := hp
      have hxs : xs = [] := by
        have hl := List.length_dropLast (x0 :: xs)
        rw [hd] at hl
        simp at hl
        exact List.length_eq_zero.mp hl.symm
      subst hxs
      subst hrest
      rw [← hx]
      simp [List.getLast]
    | y :: ys =>
      rw [hd] at hp
      simp only [Option.some.injEq, Prod.mk.injEq] at hp
      obtain ⟨hx, hrest⟩ := hp
      subst hx
      subst hrest
      have hlast := List.dropLast_append_getLast (List.cons_ne_nil x0 xs)
      rw [hd] at hlast
      set lastelt := (x0 :: xs).getLast (List.cons_ne_nil x0 xs) with hle
      have hsift : (heapqSiftup ((y :: ys).set 0 lastelt) 0).Perm (lastelt :: ys) := by
        have hset : ((y :: ys).set 0 lastelt) = lastelt :: ys := rfl
        rw [hset]
        exact heapqSiftup_perm (lastelt :: ys) (by simp)
      refine (List.Perm.cons y hsift).trans ?_
      rw [← hlast]
      exact List.Perm.cons y (List.perm_append_singleton lastelt ys).symm

/-- Pushing onto a heapq array preserves the heap invariant. -/
theorem heappush_heapProp (heap : List BackgroundTaskItem)
    (item : BackgroundTaskItem) (h : HeapProp heap) :
    HeapProp (heappush heap item) := by
  unfold heappush heapqSiftdown
  have hL : (heap ++ [item]).length - 1 = heap.length := by simp
  have hni : (heap ++ [item]).getD ((heap ++ [item]).length - 1) default = item := by
    rw [hL]
    simp [List.getD_eq_getElem?_getD, List.getElem?_concat_length]
  rw [hni, hL]
  apply siftdownLoop_heapProp
  · simp
  · exact le_refl _
  · intro c hc0 hc hcp hcpp
    have hclt : c < heap.length := by simp at hc; omega
    rw [List.getD_append _ _ _ _ hclt, List.getD_append _ _ _ _ (by omega)]
    exact h c hclt hc0
  · intro c hc0 hc hcc
    simp at hc
    omega
  · intro hpos c hc0 hc hcc
    simp at hc
    omega

/-- The parent of the chosen child is the hole. -/
theorem heapqChildpos_parent (heap : List BackgroundTaskItem) (endpos pos : Nat) :
    (heapqChildpos heap endpos pos - 1) / 2 = pos := by
  unfold heapqChildpos
  split <;> omega

/-- The chosen child is a minimal child of the hole. -/
theorem heapqChildpos_min (heap : List BackgroundTaskItem) (endpos pos : Nat)
    (h : 2 * pos + 1 < endpos) :
    ∀ c, 0 < c → c < endpos → (c - 1) / 2 = pos →
      (heap.getD (heapqChildpos heap endpos pos) default).priority
        ≤ (heap.getD c default).priority := by
  intro c hc0 hc hcc
  have hcrange : c = 2 * pos + 1 ∨ c = 2 * pos + 2 := by omega
  unfold heapqChildpos
  split
  · next h2 =>
    rcases hcrange with rfl | rfl
    · have : ¬ (heap.getD (2 * pos + 1) default).priority
          < (heap.getD (2 * pos + 2) default).priority := by
        rw [← lt_iff]
        exact h2.2
      omega
    · exact le_refl _
  · next h2 =>
    rcases hcrange with rfl | rfl
    · exact le_refl _
    · rw [not_and_or, not_not] at h2
      rcases h2 with h3 | h3
      · omega
      · have := (lt_iff _ _).mp h3
        omega

/-- The descent loop of _siftup keeps all edges not out of the hole intact and
ends at a leaf: a hole with no in-range children. -/
theorem siftupLoop_inv :
    ∀ (fuel : Nat) (heap : List BackgroundTaskItem) (endpos pos : Nat),
      pos < heap.length → endpos = heap.length → heap.length ≤ fuel + pos →
      (∀ c, 0 < c → c < heap.length → (c - 1) / 2 ≠ pos →
        (heap.getD ((c - 1) / 2) default).priority ≤ (heap.getD c default).priority) →
      (0 < pos → ∀ c, 0 < c → c < heap.length → (c - 1) / 2 = pos →
        (heap.getD ((pos - 1) / 2) default).priority ≤ (heap.getD c default).priority) →
      (∀ c, 0 < c → c < (heapqSiftupLoop fuel heap endpos pos).1.length →
          (c - 1) / 2 ≠ (heapqSiftupLoop fuel heap endpos pos).2 →
        ((heapqSiftupLoop fuel heap endpos pos).1.getD ((c - 1) / 2) default).priority
          ≤ ((heapqSiftupLoop fuel heap endpos pos).1.getD c default).priority) ∧
      (heapqSiftupLoop fuel heap endpos pos).1.length
        ≤ 2 * (heapqSiftupLoop fuel heap endpos pos).2 + 1 := by
  intro fuel
  induction fuel with
  | zero =>
    intro heap endpos pos hpos hend hfuel hA _
    refine ⟨hA, ?_⟩
    show heap.length ≤ 2 * pos + 1
    omega
  | succ f ih =>
    intro heap endpos pos hpos hend hfuel hA hB
    unfold heapqSiftupLoop
    by_cases hc : 2 * pos + 1 < endpos
    · rw [if_pos hc]
      have hclt : heapqChildpos heap endpos pos < endpos :=
        heapqChildpos_lt heap endpos pos hc
      have hcgt : pos < heapqChildpos heap endpos pos :=
        heapqChildpos_gt heap endpos pos
      have hcpar : (heapqChildpos heap endpos pos - 1) / 2 = pos :=
        heapqChildpos_parent heap endpos pos
      apply ih
      · rw [List.length_set]; omega
      · rw [List.length_set]; exact hend
      · rw [List.length_set]; omega
      · intro c hc0 hcl hcpp
        rw [List.length_set] at hcl
        by_cases hceq : c = pos
        · rw [hceq]
          have hpos0 : 0 < pos := by omega
          rw [getD_set_ne _ pos ((pos - 1) / 2) _ (by omega),
              getD_set_self _ pos _ hpos]
          exact hB hpos0 (heapqChildpos heap endpos pos) (by omega) (by omega) hcpar
        · by_cases hcp : (c - 1) / 2 = pos
          · by_cases hcc2 : c = heapqChildpos heap endpos pos
            · rw [hcp, hcc2, getD_set_self _ pos _ hpos,
                  getD_set_ne _ pos (heapqChildpos heap endpos pos) _ (by omega)]
            · rw [hcp, getD_set_self _ pos _ hpos,
                  getD_set_ne _ pos c _ (fun h => hceq h.symm)]
              exact heapqChildpos_min heap endpos pos hc c hc0 (by omega) hcp
          · rw [getD_set_ne _ pos ((c - 1) / 2) _ (fun h => hcp h.symm),
                getD_set_ne _ pos c _ (fun h => hceq h.symm)]
            exact hA c hc0 hcl hcp
      · intro _ c hc0 hcl hcc
        rw [List.length_set] at hcl
        rw [hcpar, getD_set_self _ pos _ hpos,
            getD_set_ne _ pos c _ (by omega)]
        have h6 := hA c hc0 hcl (by omega)
        rw [hcc] at h6
        exact h6
    · rw [if_neg hc]
      refine ⟨hA, ?_⟩
      show heap.length ≤ 2 * pos + 1
      omega

end DocProcAi

namespace DocProcAi

/-- The empty array is a heap. -/
theorem heapProp_nil : HeapProp ([] : List BackgroundTaskItem) := by
  intro c hc _
  simp at hc

/-- Reading the prefix kept by dropLast. -/
theorem getD_dropLast (l : List BackgroundTaskItem) (i : Nat)
    (hi : i < l.dropLast.length) :
    l.dropLast.getD i default = l.getD i default := by
  have hi2 : i < l.length := by
    rw [List.length_dropLast] at hi
    omega
  rw [List.getD_eq_getElem _ _ hi, List.getD_eq_getElem _ _ hi2]
  exact List.getElem_dropLast l i hi

/-- heapq._siftup at the root restores the heap invariant, given that only the
edges out of the root may be broken. -/
theorem heapqSiftup_heapProp (heap : List BackgroundTaskItem)
    (h0 : 0 < heap.length)
    (hA : ∀ c, 0 < c → c < heap.length → (c - 1) / 2 ≠ 0 →
      (heap.getD ((c - 1) / 2) default).priority ≤ (heap.getD c default).priority) :
    HeapProp (heapqSiftup heap 0) := by
  unfold heapqSiftup heapqSiftdown
  obtain ⟨hAr, hleaf⟩ := siftupLoop_inv heap.length heap heap.length 0 h0 rfl
    (by omega) hA (fun hcon => absurd hcon (Nat.lt_irrefl 0))
  obtain ⟨hlen, hp2⟩ := siftupLoop_shape heap.length heap heap.length 0 h0
    (le_refl _)
  rw [getD_set_self (heapqSiftupLoop heap.length heap heap.length 0).1
      (heapqSiftupLoop heap.length heap heap.length 0).2 (heap.getD 0 default)
      (by rw [hlen]; exact hp2)]
  apply siftdownLoop_heapProp
  · rw [List.length_set, hlen]
    exact hp2
  · exact le_refl _
  · intro c hc0 hc hcp hcpp
    rw [List.length_set] at hc
    rw [getD_set_ne _ _ ((c - 1) / 2) _ (fun hh => hcpp hh.symm),
        getD_set_ne _ _ c _ (fun hh => hcp hh.symm)]
    exact hAr c hc0 hc hcpp
  · intro c hc0 hc hcc
    rw [List.length_set, hlen] at hc
    rw [hlen] at hleaf
    omega
  · intro hpos c hc0 hc hcc
    rw [List.length_set, hlen] at hc
    rw [hlen] at hleaf
    omega

/-- Popping a heapq array preserves the heap invariant. -/
theorem heappop_heapProp (heap : List BackgroundTaskItem) (h : HeapProp heap)
    (x : BackgroundTaskItem) (rest : List BackgroundTaskItem)
    (hp : heappop heap = some (x, rest)) : HeapProp rest := by
  match heap with
  | [] => exact absurd hp (by simp [heappop])
  | x0 :: xs =>
    unfold heappop at hp
    simp only at hp
    match hd : (x0 :: xs).dropLast with
    | [] =>
      rw [hd] at hp
      simp only [Option.some.injEq, Prod.mk.injEq] at hp
      rw [← hp.2]
      exact heapProp_nil
    | y :: ys =>
      rw [hd] at hp
      simp only [Option.some.injEq, Prod.mk.injEq] at hp
      rw [← hp.2]
      apply heapqSiftup_heapProp
      · simp
      · intro c hc0 hc hcpp
        simp only [List.length_set] at hc
        rw [getD_set_ne _ 0 c _ (by omega), getD_set_ne _ 0 ((c - 1) / 2) _
          (fun hh => hcpp hh.symm)]
        rw [← hd] at hc ⊢
        rw [getD_dropLast _ c hc, getD_dropLast _ ((c - 1) / 2) (by omega)]
        have hc2 : c < (x0 :: xs).length := by
          rw [List.length_dropLast] at hc
          omega
        exact h c hc2 hc0

/-- In a heap, the root priority is minimal. -/
theorem heapProp_le_root (heap : List BackgroundTaskItem) (h : HeapProp heap) :
    ∀ i, i < heap.length →
      (heap.getD 0 default).priority ≤ (heap.getD i default).priority := by
  intro i
  induction i using Nat.strong_induction_on with
  | _ i ih =>
    intro hi
    rcases Nat.eq_zero_or_pos i with rfl | hpos
    · exact le_refl _
    · exact le_trans (ih ((i - 1) / 2) (by omega) (by omega)) (h i hi hpos)

/-- heappop returns an item of minimal priority. -/
theorem heappop_min (heap : List BackgroundTaskItem) (h : HeapProp heap)
    (x : BackgroundTaskItem) (rest : List BackgroundTaskItem)
    (hp : heappop heap = some (x, rest)) :
    ∀ y ∈ heap, x.priority ≤ y.priority := by
  match heap with
  | [] => exact absurd hp (by simp [heappop])
  | x0 :: xs =>
    have hx : x = x0 := by
      unfold heappop at hp
      simp only at hp
      match hd : (x0 :: xs).dropLast with
      | [] =>
        rw [hd] at hp
        simp only [Option.some.injEq, Prod.mk.injEq] at hp
        have hxs : xs = [] := by
          have hl := List.length_dropLast (x0 :: xs)
          rw [hd] at hl
          simp at hl
          exact List.length_eq_zero.mp hl.symm
        subst hxs
        rw [← hp.1]
        rfl
      | y :: ys =>
        rw [hd] at hp
        simp only [Option.some.injEq, Prod.mk.injEq] at hp
        have hne : xs ≠ [] := by
          intro hxs
          subst hxs
          simp at hd
        have hdl : (x0 :: xs).dropLast = x0 :: xs.dropLast :=
          List.dropLast_cons_of_ne_nil hne
        rw [hd] at hdl
        have h1 : y = x0 := by injection hdl
        rw [← hp.1, h1]
    subst hx
    intro y hy
    obtain ⟨i, hi, hgi⟩ := List.mem_iff_getElem.mp hy
    have hroot := heapProp_le_root (x :: xs) h i hi
    rw [List.getD_eq_getElem _ _ hi, hgi] at hroot
    simpa using hroot

/-- heappop on a nonempty queue always returns an item. -/
theorem heappop_isSome (heap : List BackgroundTaskItem) (hne : heap ≠ []) :
    ∃ x rest, heappop heap = some (x, rest) := by
  match heap with
  | [] => exact absurd rfl hne
  | x0 :: xs =>
    unfold heappop
    simp only
    match hd : (x0 :: xs).dropLast with
    | [] => exact ⟨_, _, rfl⟩
    | y :: ys => exact ⟨_, _, rfl⟩

/-- Draining a heap yields its contents sorted by non-decreasing priority. -/
theorem drainHeapFuel_spec :
    ∀ (n : Nat) (heap : List BackgroundTaskItem), heap.length = n →
      HeapProp heap →
      (drainHeapFuel n heap).Perm heap ∧
      List.Pairwise (fun a b => a.priority ≤ b.priority) (drainHeapFuel n heap) := by
  intro n
  induction n with
  | zero =>
    intro heap hlen _
    have hnil : heap = [] := List.length_eq_zero.mp hlen
    subst hnil
    exact ⟨List.Perm.refl _, List.Pairwise.nil⟩
  | succ m ih =>
    intro heap hlen hprop
    have hne : heap ≠ [] := by
      intro hnil
      rw [hnil] at hlen
      simp only [List.length_nil] at hlen
      omega
    obtain ⟨x, rest, hp⟩ := heappop_isSome heap hne
    have hperm := heappop_perm heap x rest hp
    have hlen2 : rest.length = m := by
      have hle := hperm.length_eq
      simp at hle
      omega
    have hprop2 := heappop_heapProp heap hprop x rest hp
    obtain ⟨ihp, ihs⟩ := ih rest hlen2 hprop2
    have hdrain : drainHeapFuel (m + 1) heap = x :: drainHeapFuel m rest := by
      show (match heappop heap with
            | none => []
            | some (y, rest2) => y :: drainHeapFuel m rest2) = x :: drainHeapFuel m rest
      rw [hp]
    rw [hdrain]
    constructor
    · exact (List.Perm.cons x ihp).trans hperm
    · rw [List.pairwise_cons]
      refine ⟨?_, ihs⟩
      intro y hy
      have hyrest : y ∈ rest := ihp.mem_iff.mp hy
      have hyheap : y ∈ heap := hperm.mem_iff.mp (List.mem_cons_of_mem x hyrest)
      exact heappop_min heap hprop x rest hp y hyheap

/-- The worker drains any invariant-satisfying queue state as a priority-sorted
permutation of its contents. -/
theorem drainHeap_spec (heap : List BackgroundTaskItem) (h : HeapProp heap) :
    (drainHeap heap).Perm heap ∧
    List.Pairwise (fun a b => a.priority ≤ b.priority) (drainHeap heap) :=
  drainHeapFuel_spec heap.length heap rfl h

/-- Every queue built by put calls satisfies the heap invariant. -/
theorem buildHeap_heapProp (items : List BackgroundTaskItem) :
    HeapProp (buildHeap items) :=
  foldl_preserve HeapProp heappush
    (fun st it hp => heappush_heapProp st it hp) items [] heapProp_nil

/-- A built queue holds exactly the pushed items. -/
theorem buildHeap_perm (items : List BackgroundTaskItem) :
    (buildHeap items).Perm items := by
  unfold buildHeap
  suffices hgen : ∀ (l acc : List BackgroundTaskItem),
      (l.foldl heappush acc).Perm (acc ++ l) by
    simpa using hgen items []
  intro l
  induction l with
  | nil => intro acc; simp
  | cons a l2 ih =>
    intro acc
    simp only [List.foldl_cons]
    refine (ih (heappush acc a)).trans ?_
    have h1 : (heappush acc a ++ l2).Perm ((a :: acc) ++ l2) :=
      (heappush_perm acc a).append_right l2
    refine h1.trans ?_
    simp only [List.cons_append]
    exact List.Perm.symm (List.perm_middle)

end DocProcAi

/-- C4 counterexample: the claim states items with equal priority are dequeued
in their relative enqueue order. Enqueueing the four tasks 10, 11, 12 and 13
with priority 0 in that order makes the worker dequeue them as 10, 12, 11, 13:
task 12 is dequeued before the earlier-enqueued task 11, because
BackgroundTaskItem.__lt__ compares only priorities and the binary heap of
heapq is not stable on ties. -/
theorem equal_priority_dequeue_not_fifo :
    DocProcAi.drainHeap (DocProcAi.buildHeap
        [⟨10, 0⟩, ⟨11, 0⟩, ⟨12, 0⟩, ⟨13, 0⟩])
      = [⟨10, 0⟩, ⟨12, 0⟩, ⟨11, 0⟩, ⟨13, 0⟩] ∧
    DocProcAi.drainHeap (DocProcAi.buildHeap
        [⟨10, 0⟩, ⟨11, 0⟩, ⟨12, 0⟩, ⟨13, 0⟩])
      ≠ [⟨10, 0⟩, ⟨11, 0⟩, ⟨12, 0⟩, ⟨13, 0⟩] := by
  constructor
  · rfl
  · decide

/-- C4 amended: the worker dequeues every enqueued item exactly once and in
non-decreasing priority order, so strictly smaller priority values are
dequeued first; but items of equal priority are dequeued in binary-heap
order, which does not always preserve their relative enqueue order. -/
theorem background_queue_dequeues_by_priority
    (items : List DocProcAi.BackgroundTaskItem) :
    (DocProcAi.drainHeap (DocProcAi.buildHeap items)).Perm items ∧
    List.Pairwise (fun a b => a.priority ≤ b.priority)
      (DocProcAi.drainHeap (DocProcAi.buildHeap items)) := by
  obtain ⟨hperm, hsort⟩ :=
    DocProcAi.drainHeap_spec _ (DocProcAi.buildHeap_heapProp items)
  exact ⟨hperm.trans (DocProcAi.buildHeap_perm items), hsort⟩

/-- C5: on every queue state satisfying the heapq invariant (which holds for
every state built by put and get calls), if a task t1 of priority 0 and a task
t2 of priority 1 are both queued before the worker dequeues either, the worker
dequeues and runs t1 before t2; with the single worker thread awaiting each
task to completion, t1 finishes before t2 starts. -/
theorem priority_zero_task_runs_before_priority_one
    (heap : List DocProcAi.BackgroundTaskItem)
    (hheap : DocProcAi.HeapProp heap) (t1 t2 : DocProcAi.BackgroundTaskItem)
    (h1 : t1 ∈ heap) (h2 : t2 ∈ heap) (hp1 : t1.priority = 0)
    (hp2 : t2.priority = 1) :
    ∃ (i j : Fin (DocProcAi.drainHeap heap).length), (i : Nat) < (j : Nat) ∧
      (DocProcAi.drainHeap heap).get i = t1 ∧
      (DocProcAi.drainHeap heap).get j = t2 := by
  obtain ⟨hperm, hsort⟩ := DocProcAi.drainHeap_spec heap hheap
  obtain ⟨i, hi⟩ := List.mem_iff_get.mp (hperm.mem_iff.mpr h1)
  obtain ⟨j, hj⟩ := List.mem_iff_get.mp (hperm.mem_iff.mpr h2)
  have hij : (i : Nat) < (j : Nat) := by
    rcases Nat.lt_trichotomy (i : Nat) (j : Nat) with h | h | h
    · exact h
    · exfalso
      have hteq : t1 = t2 := by
        rw [← hi, ← hj]
        congr 1
        exact Fin.ext h
      rw [hteq, hp2] at hp1
      omega
    · exfalso
      have hle := List.pairwise_iff_get.mp hsort j i h
      rw [hi, hj] at hle
      rw [hp1, hp2] at hle
      omega
  exact ⟨i, j, hij, hi, hj⟩

/-- Witness for C5: with the linking task (priority 1) enqueued before the
ingestion task (priority 0), the worker still dequeues the ingestion task
first. -/
theorem priority_zero_task_runs_before_priority_one_witness :
    ∃ (i j : Fin (DocProcAi.drainHeap
        (DocProcAi.buildHeap [⟨1, 1⟩, ⟨2, 0⟩])).length),
      (i : Nat) < (j : Nat) ∧
      (DocProcAi.drainHeap (DocProcAi.buildHeap [⟨1, 1⟩, ⟨2, 0⟩])).get i = ⟨2, 0⟩ ∧
      (DocProcAi.drainHeap (DocProcAi.buildHeap [⟨1, 1⟩, ⟨2, 0⟩])).get j = ⟨1, 1⟩ :=
  priority_zero_task_runs_before_priority_one _ (by decide) ⟨2, 0⟩ ⟨1, 1⟩
    (by decide) (by decide) rfl rfl
